import Mathlib

/-!
# SAWARI: live-route polling, nearest-stop matching and search suggestions

A shallow embedding of three source files of the front end:

* `src/components/ActiveRouteMap.jsx`: the haversine helper `dist`, the nearest-stop scan and
  the `nextIdx` computation of `fetchAndRender`, and the polling effect;
* `src/components/SearchBar.jsx`: the debounced suggestions effect;
* `src/pages/SearchResults.jsx`: the normalisation of the search response.

Modelling conventions.

* The program computes in IEEE double precision. The haversine helper `dist` is embedded as
  its formula over exact real numbers, for the laws that are worded over exact real arithmetic.
  Wherever the program compares distances, the value that `dist` returns in double precision
  is a parameter `distJs` of the model: `none` for `NaN`, else the number. Every statement
  about the scan holds for every such parameter, so for the values the program computes.
* A value that `Number.isFinite` rejects (`NaN`, `Infinity`, `-Infinity`) is modelled by `none`;
  a comparison with `NaN` is false.
* The asynchronous effects are modelled by step functions on explicit state: one event is the
  start of a cycle, the firing of a timer, the settling of a fetch or a React cleanup.
* Time is a natural number of milliseconds; an effect runs at the instant of the state change
  that schedules it.
-/

/-- Parsed JSON value, as returned by `res.json()`. An object lists its own properties. -/
inductive Json where
  | null : Json
  | bool (b : Bool) : Json
  | num (x : ℚ) : Json
  | str (s : String) : Json
  | arr (items : List Json) : Json
  | obj (fields : List (String × Json)) : Json

namespace Json

/-- The items of the value when `Array.isArray(v)` holds, `none` otherwise. -/
def asArray : Json → Option (List Json)
  | arr items => some items
  | _ => none

/-- Optional property access `v?.[k]`: `none` stands for `undefined`. Only an object has own
properties named by the program; `null` and primitives give `undefined`. -/
def field (k : String) : Json → Option Json
  | obj fields => fields.lookup k
  | _ => none

end Json

/-- White space and line terminators removed by `String.prototype.trim`. -/
def isTrimChar (c : Char) : Bool :=
  let n := c.toNat
  n = 0x9 || n = 0xA || n = 0xB || n = 0xC || n = 0xD || n = 0x20 || n = 0xA0 || n = 0x1680 ||
  (0x2000 ≤ n && n ≤ 0x200A) || n = 0x2028 || n = 0x2029 || n = 0x202F || n = 0x205F ||
  n = 0x3000 || n = 0xFEFF

/-- The method `s.trim()`. -/
def trim (s : String) : String :=
  String.mk ((s.data.dropWhile isTrimChar).reverse.dropWhile isTrimChar).reverse

/-- The test `s.toUpperCase() === 'UP'`. The only characters that `toUpperCase` maps to `U`
or `P` are `u`, `U`, `p` and `P`, and a character that it maps to several letters maps to
none of the two, so the test holds exactly for the spellings `UP`, `Up`, `uP` and `up`. -/
def upperIsUP (s : String) : Bool := s.data.map Char.toUpper == ['U', 'P']

namespace ActiveRouteMap

/-! ## Haversine helper -/

/-- A coordinate pair in degrees, both components finite. -/
structure Coordinate where
  lat : ℝ
  lng : ℝ

/-- Degrees to radians: `d => (d * Math.PI) / 180`. -/
noncomputable def toRad (d : ℝ) : ℝ := (d * Real.pi) / 180

/-- Earth radius in metres: `const R = 6371e3`. -/
noncomputable def R : ℝ := 6371e3

/-- The function `Math.atan2(y, x)`: the angle in `(-π, π]` of the point `(x, y)`. -/
noncomputable def atan2 (y x : ℝ) : ℝ := Complex.arg ⟨x, y⟩

/-- The formula of the haversine helper `dist(a, b)` of the polling effect, over exact real
arithmetic: what the helper computes up to the rounding of double precision. The
quantity `x` lies in `[0, 1]` for all real inputs (`havX_mem_unit`), so both square roots are
taken of non-negative numbers. -/
noncomputable def dist (a b : Coordinate) : ℝ :=
  let dLat := toRad (b.lat - a.lat)
  let dLng := toRad (b.lng - a.lng)
  let lat1 := toRad a.lat
  let lat2 := toRad b.lat
  let x := Real.sin (dLat / 2) ^ 2 + Real.cos lat1 * Real.cos lat2 * Real.sin (dLng / 2) ^ 2
  let y := 2 * atan2 (Real.sqrt x) (Real.sqrt (1 - x))
  R * y

/-- The quantity `x` computed inside `dist`. -/
noncomputable def havX (a b : Coordinate) : ℝ :=
  Real.sin (toRad (b.lat - a.lat) / 2) ^ 2 +
    Real.cos (toRad a.lat) * Real.cos (toRad b.lat) * Real.sin (toRad (b.lng - a.lng) / 2) ^ 2

/-- Range of a coordinate in the data model: latitude in `[-90, 90]`, longitude in
`[-180, 180]`. -/
def InRange (a : Coordinate) : Prop :=
  -90 ≤ a.lat ∧ a.lat ≤ 90 ∧ -180 ≤ a.lng ∧ a.lng ≤ 180

/-! ## Nearest-stop scan and next index -/

/-- A stop of the static route catalogue. -/
structure Stop where
  lat : ℝ
  lng : ℝ
  stop_name : Option String

/-- The object `{ lat: s.lat, lng: s.lng }` passed to `dist` for a stop. -/
def Stop.point (s : Stop) : Coordinate := ⟨s.lat, s.lng⟩

/-- The object `busPoint`: the results of `parseFloat` on the first bus, `none` for a result
that is not finite. -/
structure BusPoint where
  lat : Option ℝ
  lng : Option ℝ

/-- The value `dist(busPoint, { lat: s.lat, lng: s.lng })` when the formula is evaluated over
exact reals; `none` is `NaN`, the value as soon as one component of `busPoint` is not finite.
It is one admissible value of the parameter `distJs` below, used in the examples. -/
noncomputable def distTo (busPoint : BusPoint) (s : Stop) : Option ℝ :=
  match busPoint.lat, busPoint.lng with
  | some lat, some lng => some (dist ⟨lat, lng⟩ s.point)
  | _, _ => none

/-- One iteration of the `forEach` body on the pair `(bestIdx, bestD)`: the update is made when
`d < bestD`, which is false for `NaN`. The value `⊤` is `Infinity`. -/
def scanStep {α : Type} [LinearOrder α] (st : ℕ × WithTop α) (d : Option α) (i : ℕ) :
    ℕ × WithTop α :=
  match d with
  | some v => if (v : WithTop α) < st.2 then (i, (v : WithTop α)) else st
  | none => st

/-- The loop `stops.forEach((s, i) => ...)` from index `i` on. -/
def scanFrom {σ α : Type} [LinearOrder α] (d : σ → Option α) :
    List σ → ℕ → ℕ × WithTop α → ℕ × WithTop α
  | [], _, st => st
  | s :: rest, i, st => scanFrom d rest (i + 1) (scanStep st (d s) i)

/-- The value of `bestIdx` after the scan, started with `bestIdx = 0`, `bestD = Infinity`. -/
def nearestScan {σ α : Type} [LinearOrder α] (d : σ → Option α) (stops : List σ) : ℕ :=
  (scanFrom d stops 0 (0, ⊤)).1

/-- The index `bestIdx` computed by `fetchAndRender` for `busPoint` over the stop list. The
parameter `distJs` is the value that the helper `dist` returns, in double precision, for
`busPoint` and the point of a stop: `none` for `NaN`, else the number. -/
def bestIdx {α : Type} [LinearOrder α] (distJs : BusPoint → Stop → Option α)
    (busPoint : BusPoint) (stops : List Stop) : ℕ :=
  nearestScan (distJs busPoint) stops

/-- The flag `dirUp = (firstBus.direction || 'UP').toUpperCase() === 'UP'`, for a direction
that is absent (`none`) or a string. -/
def dirUp (direction : Option String) : Bool :=
  let d := match direction with
    | some s => if s = "" then "UP" else s
    | none => "UP"
  upperIsUP d

/-- The index `nextIdx = dirUp ? Math.min(bestIdx + 1, stops.length - 1) :
Math.max(bestIdx - 1, 0)`, for a stop list of length `n`. -/
def nextIdx (up : Bool) (best : ℕ) (n : ℕ) : ℤ :=
  if up then min ((best : ℤ) + 1) ((n : ℤ) - 1) else max ((best : ℤ) - 1) 0

/-- The text `stops[i]?.stop_name || ''`. -/
def stopName (stops : List Stop) (i : ℤ) : String :=
  if i < 0 then "" else
    match stops[i.toNat]? with
    | some s => s.stop_name.getD ""
    | none => ""

/-- The pair `(currentIdx, nextIdx)` that `fetchAndRender` derives for the first bus. -/
def locate {α : Type} [LinearOrder α] (distJs : BusPoint → Stop → Option α)
    (busPoint : BusPoint) (direction : Option String) (stops : List Stop) : ℕ × ℤ :=
  let best := bestIdx distJs busPoint stops
  (best, nextIdx (dirUp direction) best stops.length)

/-- The route `12A` of the end-to-end example: stops `X` and `Y`. -/
noncomputable def route12A : List Stop :=
  [⟨19, 72.8, some "X"⟩, ⟨19.01, 72.81, some "Y"⟩]

/-- A circular route: the last stop is at the coordinate of the first one. -/
noncomputable def loopRoute : List Stop :=
  [⟨19, 72.8, some "X"⟩, ⟨19.01, 72.81, some "Y"⟩, ⟨19, 72.8, some "X"⟩]

/-- Scan invariant after the stops of `p` have been visited. -/
def ScanInv {σ α : Type} [LinearOrder α] (d : σ → Option α) (p : List σ) (st : ℕ × WithTop α) :
    Prop :=
  (st = (0, ⊤) ∧ ∀ s ∈ p, d s = none) ∨
  (∃ v t, p[st.1]? = some t ∧ d t = some v ∧ st.2 = (v : WithTop α) ∧
    (∀ (j : ℕ) u w, p[j]? = some u → d u = some w → v ≤ w) ∧
    (∀ (j : ℕ) u w, j < st.1 → p[j]? = some u → d u = some w → v < w))

/-! ## Polling effect -/

/-- The outcome of `parseFloat(v)` on a field of a response element: the conversion of `v` to a
string throws a `TypeError` (an object whose `toString` and `valueOf` give no primitive), or
the result is not finite (`NaN`, `Infinity`, `-Infinity`), or it is a finite number. -/
inductive Parsed where
  | throws : Parsed
  | notFinite : Parsed
  | finite (x : ℝ) : Parsed

/-- The number of a parse result, `none` when it is not finite. -/
def Parsed.toNumber : Parsed → Option ℝ
  | Parsed.finite x => some x
  | _ => none

/-- The value of `bus.direction`: falsy (absent, `null`, `''`, `0`, `false`), a non-empty
string, or another truthy value (a number, `true`, an array, an object), which has no method
`toUpperCase`; `text` is then its conversion to a string, `none` when that throws. -/
inductive Direction where
  | falsy : Direction
  | str (s : String) : Direction
  | other (text : Option String) : Direction

/-- The text of `bus.direction || ''` in a template literal, `none` when the conversion to a
string throws. -/
def Direction.text : Direction → Option String
  | Direction.falsy => some ""
  | Direction.str s => some s
  | Direction.other text => text

/-- The receiver of `.toUpperCase()` in `(firstBus.direction || 'UP').toUpperCase()`: `none`
inside stands for the default `'UP'`; the outer `none` tells that the call throws a
`TypeError`, the value having no such method. -/
def Direction.spoken : Direction → Option (Option String)
  | Direction.falsy => some none
  | Direction.str s => some (some s)
  | Direction.other _ => none

/-- A vehicle of the response, reduced to what `fetchAndRender` reads: the outcomes of
`parseFloat` on `lat` and `lng`; the texts of `bus.route_no`, `bus.bus_id` and
`bus.status || ''` in a template literal, `none` when the conversion to a string throws; and
the direction. -/
structure Bus where
  lat : Parsed
  lng : Parsed
  route_no : Option String
  bus_id : Option String
  status : Option String
  direction : Direction

/-- An element of the response array. Reading a property of `null` throws a `TypeError`; the
falsy primitives `0`, `''` and `false` have none of the properties and fail the test
`firstBus && ...`; any other element is read as a vehicle. -/
inductive Item where
  | null : Item
  | falsy : Item
  | bus (b : Bus) : Item

/-- The value of `await res.json()`, split by `Array.isArray`. -/
inductive Payload where
  | notArray : Payload
  | array (items : List Item) : Payload

/-- How the awaited part of a cycle settles: the promise of `fetch` or of `res.json()` rejects
with an error of the given `name`, or the response has `res.ok` false, or it carries a
payload. -/
inductive FetchResult where
  | rejected (name : String) : FetchResult
  | notOk : FetchResult
  | ok (data : Payload) : FetchResult

/-- A marker object made by `L.marker`; `id` is the identity of the object. -/
structure Marker where
  id : ℕ
  lat : ℝ
  lng : ℝ
  title : String
  popup : String

/-- The component state touched by the polling effect. `mapObj` is `mapObjRef.current`: `none`
when there is no map, else the vehicle markers added to the map. -/
structure View where
  error : String
  currentStop : String
  nextStop : String
  markersRef : List Marker
  mapObj : Option (List Marker)
  nextMarker : ℕ

/-- The call `map.removeLayer(m)`. -/
def removeLayer (onMap : List Marker) (m : Marker) : List Marker :=
  onMap.filter (fun x => x.id ≠ m.id)

/-- The marker drawn for a bus with finite coordinates, from the texts of its fields. -/
def markerFor (id : ℕ) (lat lng : ℝ) (route_no bus_id status direction : String) : Marker :=
  { id := id, lat := lat, lng := lng,
    title := route_no ++ " #" ++ bus_id,
    popup := "<b>" ++ route_no ++ "</b><br/>Bus #" ++ bus_id ++ "<br/>" ++
      status ++ " " ++ direction }

/-- The marker bookkeeping during the drawing loop. -/
structure Layers where
  markersRef : List Marker
  onMap : List Marker
  nextMarker : ℕ

/-- The body of `data.forEach(bus => ...)` for a vehicle; `none` tells that it throws: at
`parseFloat(bus.lat)`, at `parseFloat(bus.lng)`, or, for finite coordinates, in the template
literals of the title and the popup, before the marker is added to the map. -/
def drawBus (bus : Bus) (ly : Layers) : Option Layers :=
  match bus.lat, bus.lng with
  | Parsed.throws, _ => none
  | _, Parsed.throws => none
  | Parsed.finite lat, Parsed.finite lng =>
    match bus.route_no, bus.bus_id, bus.status, bus.direction.text with
    | some route_no, some bus_id, some status, some direction =>
      let marker := markerFor ly.nextMarker lat lng route_no bus_id status direction
      some { markersRef := ly.markersRef ++ [marker], onMap := ly.onMap ++ [marker],
             nextMarker := ly.nextMarker + 1 }
    | _, _, _, _ => none
  | _, _ => some ly

/-- The loop `data.forEach(bus => ...)`; the flag tells that the loop threw. -/
def drawAll : List Item → Layers → Layers × Bool
  | [], ly => (ly, false)
  | Item.null :: _, ly => (ly, true)
  | Item.falsy :: rest, ly => drawAll rest ly
  | Item.bus b :: rest, ly =>
    match drawBus b ly with
    | some drawn => drawAll rest drawn
    | none => (ly, true)

/-- The object `busPoint = { lat: parseFloat(firstBus.lat), lng: parseFloat(firstBus.lng) }`,
`none` when a conversion throws. -/
def busPointOf (bus : Bus) : Option BusPoint :=
  match bus.lat, bus.lng with
  | Parsed.throws, _ => none
  | _, Parsed.throws => none
  | lat, lng => some ⟨lat.toNumber, lng.toNumber⟩

/-- The `catch` block of `fetchAndRender` for an error of the given `name`. -/
def onCatch (name : String) (v : View) : View :=
  if name ≠ "AbortError" then { v with error := "Failed to fetch active buses" } else v

/-- The start of `fetchAndRender`, up to the `await fetch(...)`: `setError('')`. -/
def fetchStart (v : View) : View := { v with error := "" }

/-- The rest of `fetchAndRender`, run when the awaited fetch settles. The parameter `distJs` is
the value the helper `dist` returns; `stops` is the catalogue entry `allRoutes?.[key]` of the
route, `none` when it is not an array (the catalogue is not among the sources). -/
noncomputable def fetchResume (distJs : BusPoint → Stop → Option ℝ)
    (stops : Option (List Stop)) (v : View) : FetchResult → View
  | FetchResult.rejected name => onCatch name v
  | FetchResult.notOk => onCatch "Error" v
  | FetchResult.ok Payload.notArray => v
  | FetchResult.ok (Payload.array data) =>
    match v.mapObj with
    | none => v
    | some onMap =>
      let cleared : View :=
        { v with mapObj := some (v.markersRef.foldl removeLayer onMap), markersRef := [] }
      if data.length = 0 then
        { cleared with currentStop := "", nextStop := "" }
      else
        let drawn := drawAll data ⟨[], v.markersRef.foldl removeLayer onMap, v.nextMarker⟩
        let shown : View :=
          { cleared with markersRef := drawn.1.markersRef, mapObj := some drawn.1.onMap,
                         nextMarker := drawn.1.nextMarker }
        if drawn.2 then onCatch "TypeError" shown
        else
          match data.head?, stops with
          | some (Item.bus firstBus), some stops =>
            if stops.length > 0 then
              match busPointOf firstBus, firstBus.direction.spoken with
              | some busPoint, some direction =>
                let found := locate distJs busPoint direction stops
                { shown with currentStop := stopName stops found.1,
                             nextStop := stopName stops found.2 }
              | _, _ => onCatch "TypeError" shown
            else { shown with currentStop := "", nextStop := "" }
          | _, _ => { shown with currentStop := "", nextStop := "" }

/-- A whole call of `fetchAndRender` whose fetch settles with `r` before anything else
happens. -/
noncomputable def fetchAndRender (distJs : BusPoint → Stop → Option ℝ)
    (stops : Option (List Stop)) (v : View) (r : FetchResult) : View :=
  fetchResume distJs stops (fetchStart v) r

/-- The state of one run of the polling effect: the view, whether the interval `timerId` is
registered, whether `controller.signal` is aborted, the cycles whose fetch has not settled and
the number of cycles started. -/
structure Poll where
  view : View
  timerId : Bool
  signalAborted : Bool
  pending : List ℕ
  cycles : ℕ

/-- What can happen to a running polling effect: the interval fires, the fetch of cycle `k`
settles, or React runs the cleanup. -/
inductive Event where
  | tick : Event
  | settle (k : ℕ) (r : FetchResult) : Event
  | cleanup : Event

/-- The effect body: nothing for an empty `routeNo`, else the first call of `fetchAndRender`
and `setInterval(fetchAndRender, POLL_MS)`. -/
def mount (routeNo : String) (v : View) : Poll :=
  if routeNo = "" then ⟨v, false, false, [], 0⟩ else ⟨fetchStart v, true, false, [0], 1⟩

/-- One event of the polling effect. Every cycle fetches with the one `controller.signal` of
the effect, so a fetch that settles after the cleanup rejects with `AbortError`. -/
noncomputable def step (distJs : BusPoint → Stop → Option ℝ) (stops : Option (List Stop))
    (st : Poll) : Event → Poll
  | Event.tick =>
    if st.timerId then
      { st with view := fetchStart st.view, pending := st.pending ++ [st.cycles],
                cycles := st.cycles + 1 }
    else st
  | Event.settle k r =>
    if k ∈ st.pending then
      { st with
        view := fetchResume distJs stops st.view
          (if st.signalAborted then FetchResult.rejected "AbortError" else r),
        pending := st.pending.erase k }
    else st
  | Event.cleanup => { st with signalAborted := true, timerId := false }

/-- A sequence of events, oldest first. -/
noncomputable def run (distJs : BusPoint → Stop → Option ℝ) (stops : Option (List Stop)) :
    List Event → Poll → Poll
  | [], st => st
  | e :: rest, st => run distJs stops rest (step distJs stops st e)

/-- A vehicle standing at stop `X` of route `12A`. -/
noncomputable def busAtX : Bus :=
  { lat := Parsed.finite 19, lng := Parsed.finite 72.8, route_no := some "12A",
    bus_id := some "7", status := some "", direction := Direction.str "UP" }

/-- The marker drawn for `busAtX` as the marker object number `id`. -/
noncomputable def markerAtX (id : ℕ) : Marker := markerFor id 19 72.8 "12A" "7" "" "UP"

/-- The view of a freshly mounted component whose map is ready. -/
def emptyView : View :=
  { error := "", currentStop := "", nextStop := "", markersRef := [], mapObj := some [],
    nextMarker := 0 }

/-- A view that shows one bus at stop `X`. -/
noncomputable def shownView : View :=
  { error := "", currentStop := "X", nextStop := "Y",
    markersRef := [markerAtX 0], mapObj := some [markerAtX 0], nextMarker := 1 }

/-- Two cycles in flight, then the newer one answers with no bus. -/
noncomputable def newerFirst : List Event :=
  [Event.tick, Event.settle 1 (FetchResult.ok (Payload.array []))]

/-- The same, followed by the late answer of the older cycle, with one bus. -/
noncomputable def olderLast : List Event :=
  newerFirst ++ [Event.settle 0 (FetchResult.ok (Payload.array [Item.bus busAtX]))]

/-- The displayed vehicle state of two views agrees: `markersRef`, the markers on the map,
the current stop and the next stop. -/
def SameDisplay (v w : View) : Prop :=
  v.markersRef = w.markersRef ∧ v.mapObj = w.mapObj ∧ v.currentStop = w.currentStop ∧
    v.nextStop = w.nextStop

/-- Both coordinates of the vehicle parse to finite numbers. -/
def Bus.isFinite (bus : Bus) : Bool :=
  match bus.lat, bus.lng with
  | Parsed.finite _, Parsed.finite _ => true
  | _, _ => false

/-- The loop body reads the vehicle without throwing: neither `parseFloat` throws and, when
both coordinates are finite, none of the four texts of the title and the popup throws. -/
def Bus.Readable (bus : Bus) : Prop :=
  bus.lat ≠ Parsed.throws ∧ bus.lng ≠ Parsed.throws ∧
  (bus.isFinite = true →
    bus.route_no ≠ none ∧ bus.bus_id ≠ none ∧ bus.status ≠ none ∧ bus.direction.text ≠ none)

/-- The loop body reads the element without throwing. -/
def Item.Readable : Item → Prop
  | Item.null => False
  | Item.falsy => True
  | Item.bus b => b.Readable

/-- The vehicles of a response whose `lat` and `lng` both parse to finite numbers, in response
order. -/
def finiteBuses : List Item → List Bus
  | [] => []
  | Item.bus b :: rest => if b.isFinite then b :: finiteBuses rest else finiteBuses rest
  | _ :: rest => finiteBuses rest

/-- The marker of a readable vehicle with finite coordinates, as the marker object number
`id`. -/
def Bus.marker (id : ℕ) (bus : Bus) : Marker :=
  markerFor id ((bus.lat.toNumber).getD 0) ((bus.lng.toNumber).getD 0) (bus.route_no.getD "")
    (bus.bus_id.getD "") (bus.status.getD "") (bus.direction.text.getD "")

/-- One marker for each listed vehicle, in order; the first marker object has identity `n`. -/
def markersFor : List Bus → ℕ → List Marker
  | [], _ => []
  | b :: rest, n => b.marker n :: markersFor rest (n + 1)

/-- The markers on the map are those held in `markersRef`, and marker identities not yet
handed out are unused. -/
def Synced (v : View) : Prop :=
  (v.mapObj = none ∨ v.mapObj = some v.markersRef) ∧ ∀ m ∈ v.markersRef, m.id < v.nextMarker

/-- A vehicle standing at stop `Y` of route `12A`. -/
noncomputable def busAtY : Bus :=
  { lat := Parsed.finite 19.01, lng := Parsed.finite 72.81, route_no := some "12A",
    bus_id := some "8", status := some "", direction := Direction.str "UP" }

/-- A vehicle whose latitude does not parse to a finite number. -/
noncomputable def busNoLat : Bus :=
  { lat := Parsed.notFinite, lng := Parsed.finite 72.8, route_no := some "12A",
    bus_id := some "9", status := some "", direction := Direction.falsy }

/-- A vehicle whose `lat` is an object that cannot be converted to a string, such as
`{"toString": 1}`. -/
noncomputable def busBadLat : Bus :=
  { lat := Parsed.throws, lng := Parsed.finite 1, route_no := some "12A",
    bus_id := some "9", status := some "", direction := Direction.falsy }

/-- A response array with a `null` between two vehicles. -/
noncomputable def nullBetween : List Item :=
  [Item.bus busAtX, Item.null, Item.bus busAtY]

/-- A response array without `null`, with an unreadable vehicle between two vehicles. -/
noncomputable def badBetween : List Item :=
  [Item.bus busAtX, Item.bus busBadLat, Item.bus busAtY]

end ActiveRouteMap

namespace SearchBar

/-- How the suggestion fetch settles: the promise of `fetch` or of `res.json()` rejects with an
error of the given `name`, or the response has `res.ok` false, or it carries parsed JSON. -/
inductive FetchResult where
  | rejected (name : String) : FetchResult
  | notOk : FetchResult
  | ok (data : Json) : FetchResult

/-- The argument of `setSuggestions` for a response with `res.ok`. -/
def onOk (data : Json) : List Json :=
  match data.asArray with
  | some items => items
  | none =>
    match (data.field "response").bind Json.asArray with
    | some items => items
    | none => []

/-- A pending `setTimeout`: its identity, the time it is due, and what its callback captured:
the trimmed query `q` and the `controller`. -/
structure Timer where
  id : ℕ
  due : ℕ
  q : String
  controller : ℕ

/-- An issued suggestion fetch: the query in its URL and the controller of its signal. -/
structure Request where
  q : String
  controller : ℕ

/-- The state of the component around the suggestions effect. `cleanup` holds the controller
and the timer captured by the cleanup function of the last effect run, if it returned one;
`requests` lists the fetches issued so far, oldest first; `pending` indexes those that have
not settled. -/
structure State where
  query : String
  suggestions : List Json
  now : ℕ
  timers : List Timer
  cleanup : Option (ℕ × ℕ)
  aborted : List ℕ
  requests : List Request
  pending : List ℕ
  fresh : ℕ

/-- The cleanup function `() => { controller.abort(); clearTimeout(timer); }`. -/
def runCleanup (st : State) : State :=
  match st.cleanup with
  | none => st
  | some (c, t) =>
    { st with aborted := st.aborted ++ [c], timers := st.timers.filter (fun x => x.id ≠ t),
              cleanup := none }

/-- The effect body for the current query. -/
def effect (st : State) : State :=
  let q := trim st.query
  if q = "" then
    { st with suggestions := [], cleanup := none }
  else
    { st with timers := st.timers ++ [⟨st.fresh, st.now + 300, q, st.fresh⟩],
              cleanup := some (st.fresh, st.fresh), fresh := st.fresh + 1 }

/-- The state change `setQuery(s)`: React re-runs the effect, after the cleanup of the previous
run, only when the query changes. -/
def setQuery (s : String) (st : State) : State :=
  if s = st.query then st else effect (runCleanup { st with query := s })

/-- The timer callback up to its `await fetch(...)`: the request is issued. -/
def fire (st : State) (t : Timer) : State :=
  { st with requests := st.requests ++ [⟨t.q, t.controller⟩],
            pending := st.pending ++ [st.requests.length] }

/-- The passing of `dt` milliseconds: every timer due by then fires. -/
def advance (dt : ℕ) (st : State) : State :=
  (st.timers.filter (fun t => t.due ≤ st.now + dt)).foldl fire
    { st with now := st.now + dt, timers := st.timers.filter (fun t => ¬ t.due ≤ st.now + dt) }

/-- The rest of the timer callback, run when request `i` settles. -/
def settle (i : ℕ) (r : FetchResult) (st : State) : State :=
  if i ∈ st.pending then
    match st.requests[i]? with
    | some req =>
      if req.controller ∈ st.aborted then { st with pending := st.pending.erase i }
      else
        match r with
        | FetchResult.ok data =>
          { st with pending := st.pending.erase i, suggestions := onOk data }
        | FetchResult.notOk => { st with pending := st.pending.erase i, suggestions := [] }
        | FetchResult.rejected _ => { st with pending := st.pending.erase i }
    | none => st
  else st

/-- The component after its first render: empty query, the effect has run once. -/
def mount : State :=
  effect ⟨"", [], 0, [], none, [], [], [], 0⟩

/-- A burst of query changes: each `(gap, s)` is a change to `s` made `gap` milliseconds after
the previous event. -/
def burst : List (ℕ × String) → State → State
  | [], st => st
  | (gap, s) :: rest, st => burst rest (setQuery s (advance gap st))

/-- The state right after a non-blank query change: the query is `q`, the requests issued are
`reqs`, and the one pending timer is that of `q`, due a full quiet period from now. -/
def Armed (st : State) (reqs : List Request) (q : String) : Prop :=
  st.query = q ∧ st.requests = reqs ∧
    ∃ n, st.timers = [⟨n, st.now + 300, trim q, n⟩] ∧ st.cleanup = some (n, n)

/-- What can happen to the mounted component: the query is set, time passes, or the fetch of
request `i` settles. -/
inductive Input where
  | change (s : String) : Input
  | wait (dt : ℕ) : Input
  | response (i : ℕ) (r : FetchResult) : Input

/-- One input handled by the component. -/
def handle (st : State) : Input → State
  | Input.change s => setQuery s st
  | Input.wait dt => advance dt st
  | Input.response i r => settle i r st

/-- A sequence of inputs, oldest first. -/
def handleAll : List Input → State → State
  | [], st => st
  | e :: rest, st => handleAll rest (handle st e)

/-- Every pending timer and every live pending request belongs to the last effect run: a
pending timer is the one its cleanup will clear, and a pending request either has an aborted
controller or the controller its cleanup will abort. -/
def Tidy (st : State) : Prop :=
  (∀ x ∈ st.timers, st.cleanup = some (x.controller, x.id)) ∧
  (∀ i ∈ st.pending, ∀ req, st.requests[i]? = some req →
    req.controller ∈ st.aborted ∨ ∃ t, st.cleanup = some (req.controller, t))

/-- Nothing is scheduled: no timer is pending, no cleanup is registered and every pending
request has an aborted controller. -/
def Quiet (st : State) : Prop :=
  st.timers = [] ∧ st.cleanup = none ∧
  (∀ i ∈ st.pending, ∀ req, st.requests[i]? = some req → req.controller ∈ st.aborted)

end SearchBar

namespace SearchResults

/-- The argument of `setApiResults` for a response with `res.ok`. -/
def onOk (data : Json) : List Json :=
  match data.asArray with
  | some items => items
  | none =>
    match (data.field "response").bind Json.asArray with
    | some items => items
    | none => []

end SearchResults

/-- The normalised list in the words of the specification: the payload itself when it is an
array, the `response` field of the payload when that field is an array, the empty list in every
other case. -/
def normaliseSpec (payload : Json) : List Json :=
  match payload with
  | Json.arr items => items
  | Json.obj fields =>
    match fields.lookup "response" with
    | some (Json.arr items) => items
    | _ => []
  | _ => []

namespace ActiveRouteMap

theorem R_pos : 0 < R := by unfold R; norm_num

theorem dist_eq_havX (a b : Coordinate) :
    dist a b = R * (2 * atan2 (Real.sqrt (havX a b)) (Real.sqrt (1 - havX a b))) := rfl

theorem havX_eq (a b : Coordinate) :
    havX a b = (1 - (Real.sin (toRad a.lat) * Real.sin (toRad b.lat) +
      Real.cos (toRad a.lat) * Real.cos (toRad b.lat) * Real.cos (toRad (b.lng - a.lng)))) / 2 := by
  unfold havX
  have h1 : toRad (b.lat - a.lat) = toRad b.lat - toRad a.lat := by unfold toRad; ring
  have e1 : 2 * (toRad (b.lat - a.lat) / 2) = toRad b.lat - toRad a.lat := by rw [h1]; ring
  have e2 : 2 * (toRad (b.lng - a.lng) / 2) = toRad (b.lng - a.lng) := by ring
  rw [Real.sin_sq_eq_half_sub, Real.sin_sq_eq_half_sub, e1, e2, Real.cos_sub]
  ring

theorem havX_mem_unit (a b : Coordinate) : 0 ≤ havX a b ∧ havX a b ≤ 1 := by
  rw [havX_eq]
  have h1 := Real.sin_sq_add_cos_sq (toRad a.lat)
  have h2 := Real.sin_sq_add_cos_sq (toRad b.lat)
  have h3 := Real.sin_sq_add_cos_sq (toRad (b.lng - a.lng))
  set s1 := Real.sin (toRad a.lat)
  set s2 := Real.sin (toRad b.lat)
  set c1 := Real.cos (toRad a.lat)
  set c2 := Real.cos (toRad b.lat)
  set cl := Real.cos (toRad (b.lng - a.lng))
  set sl := Real.sin (toRad (b.lng - a.lng))
  have key : (s1 * s2 + c1 * c2 * cl) ^ 2 ≤ 1 := by
    have e : 1 - (s1 * s2 + c1 * c2 * cl) ^ 2 =
        (s1 * c2 * cl - c1 * s2) ^ 2 + (c2 * sl) ^ 2 := by
      have : (1 : ℝ) = (s1 ^ 2 + c1 ^ 2) * (s2 ^ 2 + c2 ^ 2 * (sl ^ 2 + cl ^ 2)) := by
        rw [h1, h3, mul_one, h2, one_mul]
      nlinarith [this]
    nlinarith [sq_nonneg (s1 * c2 * cl - c1 * s2), sq_nonneg (c2 * sl)]
  have hab := abs_le_one_iff_mul_self_le_one.mpr (by nlinarith : (s1 * s2 + c1 * c2 * cl) * (s1 * s2 + c1 * c2 * cl) ≤ 1)
  obtain ⟨h4, h5⟩ := abs_le.mp hab
  constructor <;> linarith

theorem dist_nonneg_aux (a b : Coordinate) : 0 ≤ dist a b := by
  rw [dist_eq_havX]
  unfold atan2
  have h : 0 ≤ Complex.arg ⟨Real.sqrt (1 - havX a b), Real.sqrt (havX a b)⟩ :=
    Complex.arg_nonneg_iff.mpr (Real.sqrt_nonneg _)
  have := R_pos
  positivity

theorem dist_eq_zero_iff_havX (a b : Coordinate) : dist a b = 0 ↔ havX a b ≤ 0 := by
  rw [dist_eq_havX]
  unfold atan2
  have hR := R_pos
  simp only [mul_eq_zero, hR.ne', false_or, OfNat.ofNat_ne_zero, Complex.arg_eq_zero_iff,
    Real.sqrt_nonneg, true_and, Real.sqrt_eq_zero']

theorem dist_self_aux (a : Coordinate) : dist a a = 0 := by
  rw [dist_eq_zero_iff_havX]
  simp [havX, toRad]

theorem havX_comm (a b : Coordinate) : havX a b = havX b a := by
  unfold havX toRad
  have h1 : (b.lat - a.lat) * Real.pi / 180 / 2 = -((a.lat - b.lat) * Real.pi / 180 / 2) := by
    ring
  have h2 : (b.lng - a.lng) * Real.pi / 180 / 2 = -((a.lng - b.lng) * Real.pi / 180 / 2) := by
    ring
  simp only [h1, h2, Real.sin_neg]
  ring

theorem dist_comm_aux (a b : Coordinate) : dist a b = dist b a := by
  rw [dist_eq_havX, dist_eq_havX, havX_comm]

theorem toRad_eq (d : ℝ) : toRad d = d * (Real.pi / 180) := by unfold toRad; ring

theorem cos_toRad_nonneg (d : ℝ) (h1 : -90 ≤ d) (h2 : d ≤ 90) : 0 ≤ Real.cos (toRad d) := by
  have hpi := Real.pi_pos
  apply Real.cos_nonneg_of_neg_pi_div_two_le_of_le
  · rw [toRad_eq]; nlinarith
  · rw [toRad_eq]; nlinarith

theorem cos_toRad_eq_zero_iff (d : ℝ) (h1 : -90 ≤ d) (h2 : d ≤ 90) :
    Real.cos (toRad d) = 0 ↔ |d| = 90 := by
  have hpi := Real.pi_pos
  constructor
  · intro h
    by_contra hne
    have hlt : |d| < 90 := lt_of_le_of_ne (abs_le.mpr ⟨h1, h2⟩) hne
    obtain ⟨h3, h4⟩ := abs_lt.mp hlt
    have : 0 < Real.cos (toRad d) := by
      apply Real.cos_pos_of_mem_Ioo
      constructor
      · rw [toRad_eq]; nlinarith
      · rw [toRad_eq]; nlinarith
    linarith
  · intro h
    rcases abs_eq (by norm_num : (0 : ℝ) ≤ 90) |>.mp h with h | h
    · have : toRad d = Real.pi / 2 := by rw [toRad_eq, h]; ring
      rw [this, Real.cos_pi_div_two]
    · have : toRad d = -(Real.pi / 2) := by rw [toRad_eq, h]; ring
      rw [this, Real.cos_neg, Real.cos_pi_div_two]

theorem sin_half_toRad_eq_zero_iff (d : ℝ) (h1 : -360 ≤ d) (h2 : d ≤ 360) :
    Real.sin (toRad d / 2) = 0 ↔ d = 0 ∨ |d| = 360 := by
  have hpi := Real.pi_pos
  constructor
  · intro h
    by_cases hd : |d| = 360
    · exact Or.inr hd
    · left
      have hlt : |d| < 360 := lt_of_le_of_ne (abs_le.mpr ⟨h1, h2⟩) hd
      obtain ⟨h3, h4⟩ := abs_lt.mp hlt
      have h0 : toRad d / 2 = 0 := by
        refine (Real.sin_eq_zero_iff_of_lt_of_lt ?_ ?_).mp h
        · rw [toRad_eq]; nlinarith
        · rw [toRad_eq]; nlinarith
      rw [toRad_eq] at h0
      have : d * (Real.pi / 180) = 0 := by linarith
      rcases mul_eq_zero.mp this with h5 | h5
      · exact h5
      · exfalso; linarith
  · rintro (h | h)
    · rw [h]; simp [toRad]
    · rcases abs_eq (by norm_num : (0 : ℝ) ≤ 360) |>.mp h with h | h
      · have : toRad d / 2 = Real.pi := by rw [toRad_eq, h]; ring
        rw [this, Real.sin_pi]
      · have : toRad d / 2 = -Real.pi := by rw [toRad_eq, h]; ring
        rw [this, Real.sin_neg, Real.sin_pi, neg_zero]

theorem dist_eq_zero_iff_of_inRange (a b : Coordinate) (ha : InRange a) (hb : InRange b) :
    dist a b = 0 ↔
      a.lat = b.lat ∧ (a.lng = b.lng ∨ |a.lat| = 90 ∨ |a.lng - b.lng| = 360) := by
  obtain ⟨a1, a2, a3, a4⟩ := ha
  obtain ⟨b1, b2, b3, b4⟩ := hb
  rw [dist_eq_zero_iff_havX]
  have hca := cos_toRad_nonneg a.lat a1 a2
  have hcb := cos_toRad_nonneg b.lat b1 b2
  have hs1 := sq_nonneg (Real.sin (toRad (b.lat - a.lat) / 2))
  have hs2 := sq_nonneg (Real.sin (toRad (b.lng - a.lng) / 2))
  have hprod : 0 ≤ Real.cos (toRad a.lat) * Real.cos (toRad b.lat) *
      Real.sin (toRad (b.lng - a.lng) / 2) ^ 2 := by positivity
  have hlat : Real.sin (toRad (b.lat - a.lat) / 2) = 0 ↔ a.lat = b.lat := by
    constructor
    · intro h
      have hpi := Real.pi_pos
      have h0 : toRad (b.lat - a.lat) / 2 = 0 := by
        refine (Real.sin_eq_zero_iff_of_lt_of_lt ?_ ?_).mp h
        · rw [toRad_eq]; nlinarith
        · rw [toRad_eq]; nlinarith
      rw [toRad_eq] at h0
      have : (b.lat - a.lat) * (Real.pi / 180) = 0 := by linarith
      rcases mul_eq_zero.mp this with h5 | h5
      · linarith
      · exfalso; linarith
    · intro h; rw [h]; simp [toRad]
  have hlng := sin_half_toRad_eq_zero_iff (b.lng - a.lng) (by linarith) (by linarith)
  unfold havX
  constructor
  · intro h
    have e1 : Real.sin (toRad (b.lat - a.lat) / 2) ^ 2 = 0 := by linarith
    have e2 : Real.cos (toRad a.lat) * Real.cos (toRad b.lat) *
        Real.sin (toRad (b.lng - a.lng) / 2) ^ 2 = 0 := by linarith
    have hl : a.lat = b.lat := hlat.mp (pow_eq_zero_iff (two_ne_zero)|>.mp e1)
    refine ⟨hl, ?_⟩
    rcases mul_eq_zero.mp e2 with h3 | h3
    · rcases mul_eq_zero.mp h3 with h4 | h4
      · exact Or.inr (Or.inl ((cos_toRad_eq_zero_iff a.lat a1 a2).mp h4))
      · rw [← hl] at h4
        exact Or.inr (Or.inl ((cos_toRad_eq_zero_iff a.lat a1 a2).mp h4))
    · rcases hlng.mp (pow_eq_zero_iff (two_ne_zero)|>.mp h3) with h4 | h4
      · left; linarith
      · right; right; rw [abs_sub_comm]; exact h4
  · rintro ⟨hl, h⟩
    rw [hlat.mpr hl]
    rcases h with h | h | h
    · have : Real.sin (toRad (b.lng - a.lng) / 2) = 0 := hlng.mpr (Or.inl (by linarith))
      rw [this]; simp
    · rw [(cos_toRad_eq_zero_iff a.lat a1 a2).mpr h]; simp
    · have : Real.sin (toRad (b.lng - a.lng) / 2) = 0 :=
        hlng.mpr (Or.inr (by rw [abs_sub_comm]; exact h))
      rw [this]; simp

theorem scanInv_step {σ α : Type} [LinearOrder α] (d : σ → Option α) (p : List σ) (s : σ)
    (st : ℕ × WithTop α) (h : ScanInv d p st) :
    ScanInv d (p ++ [s]) (scanStep st (d s) p.length) := by
  have look : ∀ j u, (p ++ [s])[j]? = some u → (j < p.length ∧ p[j]? = some u) ∨ (j = p.length ∧ u = s) := by
    intro j u hj
    rcases Nat.lt_or_ge j p.length with hlt | hge
    · left; rw [List.getElem?_append_left hlt] at hj; exact ⟨hlt, hj⟩
    · right
      rw [List.getElem?_append_right hge] at hj
      rcases Nat.eq_or_lt_of_le hge with heq | hgt
      · refine ⟨heq.symm, ?_⟩
        rw [← heq] at hj; simpa using hj.symm
      · have : j - p.length ≠ 0 := by omega
        obtain ⟨k, hk⟩ := Nat.exists_eq_succ_of_ne_zero this
        rw [hk] at hj; simp at hj
  cases hds : d s with
  | none =>
    simp only [scanStep]
    rcases h with ⟨hst, hall⟩ | ⟨v, t, ht, hdt, hv, hle, hlt⟩
    · refine Or.inl ⟨hst, ?_⟩
      intro s' hs'
      rcases List.mem_append.mp hs' with h1 | h1
      · exact hall s' h1
      · simp at h1; rw [h1]; exact hds
    · have hi : st.1 < p.length := by
        by_contra hc
        rw [List.getElem?_eq_none (by omega)] at ht
        cases ht
      refine Or.inr ⟨v, t, ?_, hdt, hv, ?_, ?_⟩
      · rw [List.getElem?_append_left hi]; exact ht
      · intro j u w hj hw
        rcases look j u hj with ⟨_, h1⟩ | ⟨_, h1⟩
        · exact hle j u w h1 hw
        · rw [h1, hds] at hw; cases hw
      · intro j u w hjlt hj hw
        rcases look j u hj with ⟨_, h1⟩ | ⟨_, h1⟩
        · exact hlt j u w hjlt h1 hw
        · rw [h1, hds] at hw; cases hw
  | some v' =>
    simp only [scanStep]
    split_ifs with hcmp
    · refine Or.inr ⟨v', s, by simp, hds, rfl, ?_, ?_⟩
      · intro j u w hj hw
        rcases look j u hj with ⟨_, h1⟩ | ⟨_, h1⟩
        · rcases h with ⟨_, hall⟩ | ⟨v, t, _, _, hv, hle, _⟩
          · have := hall u (List.getElem?_mem h1)
            rw [this] at hw; cases hw
          · rw [hv] at hcmp
            exact le_of_lt (lt_of_lt_of_le (WithTop.coe_lt_coe.mp hcmp) (hle j u w h1 hw))
        · rw [h1, hds] at hw; cases hw; exact le_refl _
      · intro j u w hjlt hj hw
        simp only at hjlt
        rcases look j u hj with ⟨_, h1⟩ | ⟨h0, _⟩
        · rcases h with ⟨_, hall⟩ | ⟨v, t, _, _, hv, hle, _⟩
          · have := hall u (List.getElem?_mem h1)
            rw [this] at hw; cases hw
          · rw [hv] at hcmp
            exact lt_of_lt_of_le (WithTop.coe_lt_coe.mp hcmp) (hle j u w h1 hw)
        · omega
    · rcases h with ⟨hst, _⟩ | ⟨v, t, ht, hdt, hv, hle, hlt⟩
      · exfalso; apply hcmp; rw [hst]; exact WithTop.coe_lt_top v'
      · have hi : st.1 < p.length := by
          by_contra hc
          rw [List.getElem?_eq_none (by omega)] at ht
          cases ht
        refine Or.inr ⟨v, t, ?_, hdt, hv, ?_, ?_⟩
        · rw [List.getElem?_append_left hi]; exact ht
        · intro j u w hj hw
          rcases look j u hj with ⟨_, h1⟩ | ⟨_, h1⟩
          · exact hle j u w h1 hw
          · rw [h1, hds] at hw; cases hw
            rw [hv] at hcmp
            exact not_lt.mp (fun hh => hcmp (WithTop.coe_lt_coe.mpr hh))
        · intro j u w hjlt hj hw
          rcases look j u hj with ⟨_, h1⟩ | ⟨h0, _⟩
          · exact hlt j u w hjlt h1 hw
          · omega

theorem scanInv_scanFrom {σ α : Type} [LinearOrder α] (d : σ → Option α) (l p : List σ)
    (st : ℕ × WithTop α) (h : ScanInv d p st) :
    ScanInv d (p ++ l) (scanFrom d l p.length st) := by
  induction l generalizing p st with
  | nil => simpa [scanFrom] using h
  | cons s rest ih =>
    have := ih (p ++ [s]) _ (scanInv_step d p s st h)
    simpa [scanFrom] using this

theorem scanInv_nearestScan {σ α : Type} [LinearOrder α] (d : σ → Option α) (stops : List σ) :
    ScanInv d stops (scanFrom d stops 0 (0, ⊤)) := by
  have h0 : ScanInv d [] ((0 : ℕ), (⊤ : WithTop α)) := Or.inl ⟨rfl, by simp⟩
  have := scanInv_scanFrom d stops [] (0, ⊤) h0
  simpa using this

theorem bestIdx_lt_length {α : Type} [LinearOrder α] (distJs : BusPoint → Stop → Option α)
    (busPoint : BusPoint) (stops : List Stop) (hne : stops ≠ []) :
    bestIdx distJs busPoint stops < stops.length := by
  unfold bestIdx nearestScan
  rcases scanInv_nearestScan (distJs busPoint) stops with ⟨hst, _⟩ | ⟨v, t, ht, _⟩
  · rw [hst]; exact List.length_pos.mpr hne
  · by_contra hc
    rw [List.getElem?_eq_none (by omega)] at ht
    cases ht

theorem bestIdx_spec {α : Type} [LinearOrder α] (distJs : BusPoint → Stop → Option α)
    (busPoint : BusPoint) (stops : List Stop) :
    ((∀ s ∈ stops, distJs busPoint s = none) ∧ bestIdx distJs busPoint stops = 0) ∨
    (∃ v t, stops[bestIdx distJs busPoint stops]? = some t ∧ distJs busPoint t = some v ∧
      (∀ (j : ℕ) u w, stops[j]? = some u → distJs busPoint u = some w → v ≤ w) ∧
      (∀ (j : ℕ) u w, j < bestIdx distJs busPoint stops → stops[j]? = some u →
        distJs busPoint u = some w → v < w)) := by
  unfold bestIdx nearestScan
  rcases scanInv_nearestScan (distJs busPoint) stops with
    ⟨hst, hall⟩ | ⟨v, t, ht, hdt, _, hle, hlt⟩
  · left
    exact ⟨hall, by rw [hst]⟩
  · right
    exact ⟨v, t, ht, hdt, hle, hlt⟩

theorem distTo_self (s : Stop) : distTo ⟨some s.lat, some s.lng⟩ s = some 0 := by
  simp only [distTo, Option.some.injEq]
  exact dist_self_aux s.point

theorem distTo_nonneg (busPoint : BusPoint) (s : Stop) (w : ℝ)
    (h : distTo busPoint s = some w) : 0 ≤ w := by
  unfold distTo at h
  split at h
  · simp only [Option.some.injEq] at h
    rw [← h]; exact dist_nonneg_aux _ _
  · cases h

/-- C6: the haversine helper gives `dist(a, a) = 0` and is symmetric, `dist(a, b) = dist(b, a)`,
for all coordinates, over exact real arithmetic with radius 6 371 000 m. -/
theorem dist_self_and_symm (a b : Coordinate) :
    R = 6371000 ∧ dist a a = 0 ∧ dist a b = dist b a :=
  ⟨by unfold R; norm_num, dist_self_aux a, dist_comm_aux a b⟩

/-- C1: for a non-empty stop list and a vehicle position, whatever values the helper `dist`
returns, the scan of `fetchAndRender` ends with `bestIdx` a valid index; the distance of its
stop is the least among the distances of all stops, and `bestIdx` is the lowest index at that
least distance. A stop whose distance is `NaN` is no distance to compare with: it is passed
over, and when every distance is `NaN` the scan ends with `bestIdx = 0`. -/
theorem bestIdx_is_first_minimum {α : Type} [LinearOrder α]
    (distJs : BusPoint → Stop → Option α) (busPoint : BusPoint) (stops : List Stop)
    (hne : stops ≠ []) :
    ∃ h : bestIdx distJs busPoint stops < stops.length,
      (∀ (j : ℕ) (hj : j < stops.length) (w : α), distJs busPoint (stops[j]) = some w →
        ∃ v, distJs busPoint (stops[bestIdx distJs busPoint stops]) = some v ∧ v ≤ w ∧
          (w = v → bestIdx distJs busPoint stops ≤ j)) ∧
      ((∀ s ∈ stops, distJs busPoint s = none) → bestIdx distJs busPoint stops = 0) := by
  have hlt := bestIdx_lt_length distJs busPoint stops hne
  refine ⟨hlt, ?_, ?_⟩
  · intro j hj w hw
    rcases bestIdx_spec distJs busPoint stops with ⟨hall, _⟩ | ⟨v, t, ht, hdt, hle, hfirst⟩
    · rw [hall _ (List.getElem_mem hj)] at hw; cases hw
    · rw [List.getElem?_eq_getElem hlt] at ht
      simp only [Option.some.injEq] at ht
      refine ⟨v, by rw [ht]; exact hdt, hle j _ w (List.getElem?_eq_getElem hj) hw, ?_⟩
      intro hwv
      by_contra hc
      have := hfirst j _ w (by omega) (List.getElem?_eq_getElem hj) hw
      rw [hwv] at this
      exact lt_irrefl _ this
  · intro hall
    rcases bestIdx_spec distJs busPoint stops with ⟨_, h0⟩ | ⟨v, t, ht, hdt, _, _⟩
    · exact h0
    · rw [hall t (List.getElem?_mem ht)] at hdt; cases hdt

/-- C1, witness: the scan on the two-stop route of the specification, with the distances of
the haversine formula. -/
theorem bestIdx_is_first_minimum_witness :
    route12A ≠ [] ∧
    ∃ h : bestIdx distTo ⟨some 19.001, some 72.802⟩ route12A < route12A.length,
      (∀ (j : ℕ) (hj : j < route12A.length) (w : ℝ),
        distTo ⟨some 19.001, some 72.802⟩ (route12A[j]) = some w →
        ∃ v, distTo ⟨some 19.001, some 72.802⟩
            (route12A[bestIdx distTo ⟨some 19.001, some 72.802⟩ route12A]) = some v ∧ v ≤ w ∧
          (w = v → bestIdx distTo ⟨some 19.001, some 72.802⟩ route12A ≤ j)) ∧
      ((∀ s ∈ route12A, distTo ⟨some 19.001, some 72.802⟩ s = none) →
        bestIdx distTo ⟨some 19.001, some 72.802⟩ route12A = 0) :=
  ⟨List.cons_ne_nil _ _,
    bestIdx_is_first_minimum distTo ⟨some 19.001, some 72.802⟩ route12A (List.cons_ne_nil _ _)⟩

theorem dirUp_none : dirUp none = true := by decide

theorem dirUp_UP : dirUp (some "UP") = true := by decide

theorem dirUp_DOWN : dirUp (some "DOWN") = false := by decide

/-- C2: for a non-empty stop list of length `n` and the `currentIdx` produced by the scan,
`nextIdx` is `min(currentIdx + 1, n - 1)` when the direction is `UP` or absent and
`max(currentIdx - 1, 0)` when it is `DOWN`, and in every case `nextIdx` is a valid index of the
stop list. -/
theorem nextIdx_clamped {α : Type} [LinearOrder α] (distJs : BusPoint → Stop → Option α)
    (busPoint : BusPoint) (direction : Option String) (stops : List Stop)
    (hne : stops ≠ []) :
    (direction = none ∨ direction = some "UP" →
      (locate distJs busPoint direction stops).2 =
        min (((locate distJs busPoint direction stops).1 : ℤ) + 1) ((stops.length : ℤ) - 1)) ∧
    (direction = some "DOWN" →
      (locate distJs busPoint direction stops).2 =
        max (((locate distJs busPoint direction stops).1 : ℤ) - 1) 0) ∧
    0 ≤ (locate distJs busPoint direction stops).2 ∧
    (locate distJs busPoint direction stops).2 < (stops.length : ℤ) := by
  have hlt := bestIdx_lt_length distJs busPoint stops hne
  refine ⟨?_, ?_, ?_, ?_⟩
  · rintro (h | h) <;> subst h
    · simp only [locate, nextIdx, dirUp_none, if_true]
    · simp only [locate, nextIdx, dirUp_UP, if_true]
  · intro h; subst h
    simp [locate, nextIdx, dirUp_DOWN]
  · simp only [locate, nextIdx]
    split_ifs
    · apply le_min <;> omega
    · exact le_max_right _ _
  · simp only [locate, nextIdx]
    split_ifs
    · exact lt_of_le_of_lt (min_le_right _ _) (by omega)
    · apply max_lt <;> omega

/-- C2, witness: the next index on the two-stop route of the specification, direction `UP`. -/
theorem nextIdx_clamped_witness :
    route12A ≠ [] ∧
    0 ≤ (locate distTo ⟨some 19.001, some 72.802⟩ (some "UP") route12A).2 ∧
    (locate distTo ⟨some 19.001, some 72.802⟩ (some "UP") route12A).2 <
      (route12A.length : ℤ) ∧
    (locate distTo ⟨some 19.001, some 72.802⟩ (some "UP") route12A).2 =
      min (((locate distTo ⟨some 19.001, some 72.802⟩ (some "UP") route12A).1 : ℤ) + 1)
        ((route12A.length : ℤ) - 1) :=
  have h := nextIdx_clamped distTo ⟨some 19.001, some 72.802⟩ (some "UP") route12A
    (List.cons_ne_nil _ _)
  ⟨List.cons_ne_nil _ _, h.2.2.1, h.2.2.2, h.1 (Or.inr rfl)⟩

theorem bestIdx_at_stop (distJs : BusPoint → Stop → Option ℝ) (stops : List Stop) (i : ℕ)
    (hi : i < stops.length)
    (hself : distJs ⟨some (stops[i]).lat, some (stops[i]).lng⟩ (stops[i]) = some 0)
    (hnonneg : ∀ s ∈ stops, ∀ w,
      distJs ⟨some (stops[i]).lat, some (stops[i]).lng⟩ s = some w → 0 ≤ w)
    (hfirst : ∀ (j : ℕ) (hj : j < i),
      distJs ⟨some (stops[i]).lat, some (stops[i]).lng⟩ (stops[j]) ≠ some 0) :
    bestIdx distJs ⟨some (stops[i]).lat, some (stops[i]).lng⟩ stops = i := by
  have hne : stops ≠ [] := by
    intro h; rw [h] at hi; simp at hi
  have hlt := bestIdx_lt_length distJs ⟨some (stops[i]).lat, some (stops[i]).lng⟩ stops hne
  rcases bestIdx_spec distJs ⟨some (stops[i]).lat, some (stops[i]).lng⟩ stops with
    ⟨hall, _⟩ | ⟨v, t, ht, hdt, hle, hlow⟩
  · rw [hall _ (List.getElem_mem hi)] at hself; cases hself
  · have hv0 : v = 0 :=
      le_antisymm (hle i _ 0 (List.getElem?_eq_getElem hi) hself)
        (hnonneg t (List.getElem?_mem ht) v hdt)
    rcases Nat.lt_trichotomy
      (bestIdx distJs ⟨some (stops[i]).lat, some (stops[i]).lng⟩ stops) i with h | h | h
    · exfalso
      rw [List.getElem?_eq_getElem hlt] at ht
      simp only [Option.some.injEq] at ht
      apply hfirst _ h
      rw [ht, hdt, hv0]
    · exact h
    · exfalso
      have h1 := hlow i _ 0 h (List.getElem?_eq_getElem hi) hself
      rw [hv0] at h1
      exact lt_irrefl _ h1

theorem bestIdx_loopRoute_ne_two {α : Type} [LinearOrder α]
    (distJs : BusPoint → Stop → Option α) (busPoint : BusPoint) :
    bestIdx distJs busPoint loopRoute ≠ 2 := by
  intro h2
  rcases bestIdx_spec distJs busPoint loopRoute with ⟨_, h0⟩ | ⟨v, t, ht, hdt, _, hlow⟩
  · rw [h2] at h0; cases h0
  · rw [h2] at ht hlow
    have ht2 : t = ⟨19, 72.8, some "X"⟩ := by
      simp only [loopRoute] at ht
      simpa using ht.symm
    have := hlow 0 ⟨19, 72.8, some "X"⟩ v (by omega) (by simp [loopRoute]) (by rw [← ht2]; exact hdt)
    exact lt_irrefl _ this

/-- C3, counterexample: on a route whose stops `S0` and `S2` have the same coordinate, a vehicle
exactly at `S2` is never reported with `currentIdx = 2`, whatever the helper `dist` returns;
with the distances of the haversine formula it is reported with `currentIdx = 0`. -/
theorem locate_at_stop_counterexample :
    (2 : ℕ) < loopRoute.length ∧
    (∀ distJs : BusPoint → Stop → Option ℝ,
      (locate distJs ⟨some (loopRoute[2]).lat, some (loopRoute[2]).lng⟩ (some "UP")
        loopRoute).1 ≠ 2) ∧
    (locate distTo ⟨some (loopRoute[2]).lat, some (loopRoute[2]).lng⟩ (some "UP")
      loopRoute).1 = 0 := by
  refine ⟨by simp [loopRoute], fun distJs => bestIdx_loopRoute_ne_two distJs _, ?_⟩
  have h1 : ¬ dist ⟨19, 72.8⟩ ⟨19.01, 72.81⟩ < 0 := not_lt.mpr (dist_nonneg_aux _ _)
  have h2 : dist ⟨19, 72.8⟩ ⟨19, 72.8⟩ = 0 := dist_self_aux _
  simp [locate, bestIdx, nearestScan, scanFrom, scanStep, distTo, loopRoute, Stop.point, h1, h2]

/-- C3, amended: let the helper `dist` return `0` for the vehicle and the stop `Si` it stands
at, and never a negative number. For a route with stops `[S0..Sn]` and an index `i` such that
`dist` returns `0` for no earlier stop, a vehicle exactly at the coordinate of `Si` is reported
with `currentIdx = i` and `nextIdx = min(i + 1, n)` for direction `UP`, and with
`currentIdx = i` and `nextIdx = max(i - 1, 0)` for direction `DOWN`. -/
theorem locate_at_stop (distJs : BusPoint → Stop → Option ℝ) (stops : List Stop) (i : ℕ)
    (hi : i < stops.length)
    (hself : distJs ⟨some (stops[i]).lat, some (stops[i]).lng⟩ (stops[i]) = some 0)
    (hnonneg : ∀ s ∈ stops, ∀ w,
      distJs ⟨some (stops[i]).lat, some (stops[i]).lng⟩ s = some w → 0 ≤ w)
    (hfirst : ∀ (j : ℕ) (hj : j < i),
      distJs ⟨some (stops[i]).lat, some (stops[i]).lng⟩ (stops[j]) ≠ some 0) :
    locate distJs ⟨some (stops[i]).lat, some (stops[i]).lng⟩ (some "UP") stops =
      (i, min ((i : ℤ) + 1) ((stops.length : ℤ) - 1)) ∧
    locate distJs ⟨some (stops[i]).lat, some (stops[i]).lng⟩ (some "DOWN") stops =
      (i, max ((i : ℤ) - 1) 0) := by
  have h := bestIdx_at_stop distJs stops i hi hself hnonneg hfirst
  constructor
  · simp only [locate, h, nextIdx, dirUp_UP, if_true]
  · simp [locate, h, nextIdx, dirUp_DOWN]

/-- C3, witness: a vehicle at the second stop of the two-stop route of the specification, with
the distances of the haversine formula. -/
theorem locate_at_stop_witness :
    (1 : ℕ) < route12A.length ∧
    locate distTo ⟨some 19.01, some 72.81⟩ (some "UP") route12A = (1, 1) ∧
    locate distTo ⟨some 19.01, some 72.81⟩ (some "DOWN") route12A = (1, 0) := by
  have hi : (1 : ℕ) < route12A.length := by simp [route12A]
  have hfirst : ∀ (j : ℕ) (hj : j < 1),
      distTo ⟨some (route12A[1]).lat, some (route12A[1]).lng⟩ (route12A[j]) ≠ some 0 := by
    intro j hj
    have hj0 : j = 0 := by omega
    subst hj0
    intro hz
    have hz' : dist ⟨19.01, 72.81⟩ ⟨19, 72.8⟩ = 0 := by
      simpa [distTo, route12A, Stop.point] using hz
    have r1 : InRange ⟨19.01, 72.81⟩ := by unfold InRange; norm_num
    have r2 : InRange ⟨19, 72.8⟩ := by unfold InRange; norm_num
    have := ((dist_eq_zero_iff_of_inRange ⟨19.01, 72.81⟩ ⟨19, 72.8⟩ r1 r2).mp hz').1
    norm_num at this
  have h := locate_at_stop distTo route12A 1 hi (distTo_self _)
    (fun s _ w hw => distTo_nonneg _ s w hw) hfirst
  refine ⟨hi, ?_, ?_⟩
  · have := h.1
    simpa [route12A] using this
  · have := h.2
    simpa [route12A] using this

theorem bestIdx_busAtX : bestIdx distTo ⟨some 19, some 72.8⟩ route12A = 0 :=
  bestIdx_at_stop distTo route12A 0 (by simp [route12A]) (distTo_self _)
    (fun s _ w hw => distTo_nonneg _ s w hw) (by intro j hj; omega)

theorem step_view_of_aborted (distJs : BusPoint → Stop → Option ℝ)
    (stops : Option (List Stop)) (st : Poll) (e : Event) (h1 : st.signalAborted = true)
    (h2 : st.timerId = false) :
    (step distJs stops st e).view = st.view ∧
    (step distJs stops st e).signalAborted = true ∧
    (step distJs stops st e).timerId = false := by
  cases e with
  | tick => simp [step, h1, h2]
  | settle k r =>
    by_cases hk : k ∈ st.pending
    · simp [step, hk, h1, h2, fetchResume, onCatch]
    · simp [step, hk, h1, h2]
  | cleanup => simp [step]

theorem run_view_of_aborted (distJs : BusPoint → Stop → Option ℝ)
    (stops : Option (List Stop)) (evs : List Event) (st : Poll)
    (h1 : st.signalAborted = true) (h2 : st.timerId = false) :
    (run distJs stops evs st).view = st.view := by
  induction evs generalizing st with
  | nil => rfl
  | cons e rest ih =>
    obtain ⟨hv, ha, ht⟩ := step_view_of_aborted distJs stops st e h1 h2
    simp only [run]
    rw [ih _ ha ht, hv]

theorem pending_step (distJs : BusPoint → Stop → Option ℝ) (stops : Option (List Stop))
    (st : Poll) (k : ℕ) (e : Event) (hk : k ∈ st.pending) (ha : st.signalAborted = false)
    (he : e ≠ Event.cleanup ∧ ∀ r, e ≠ Event.settle k r) :
    k ∈ (step distJs stops st e).pending ∧ (step distJs stops st e).signalAborted = false := by
  cases e with
  | tick =>
    by_cases ht : st.timerId = true
    · simp [step, ht, hk, ha]
    · simp [step, ht, hk, ha]
  | settle k' r =>
    have hne : k ≠ k' := by
      intro h; exact he.2 r (by rw [h])
    by_cases hk' : k' ∈ st.pending
    · simp only [step, hk', if_true]
      exact ⟨(List.mem_erase_of_ne hne).mpr hk, ha⟩
    · simp [step, hk', hk, ha]
  | cleanup => exact absurd rfl he.1

theorem pending_run (distJs : BusPoint → Stop → Option ℝ) (stops : Option (List Stop))
    (evs : List Event) (st : Poll) (k : ℕ) (hk : k ∈ st.pending)
    (ha : st.signalAborted = false)
    (hevs : ∀ e ∈ evs, e ≠ Event.cleanup ∧ ∀ r, e ≠ Event.settle k r) :
    k ∈ (run distJs stops evs st).pending ∧
    (run distJs stops evs st).signalAborted = false := by
  induction evs generalizing st with
  | nil => exact ⟨hk, ha⟩
  | cons e rest ih =>
    obtain ⟨h1, h2⟩ := pending_step distJs stops st k e hk ha (hevs e (List.mem_cons_self _ _))
    exact ih _ h1 h2 (fun x hx => hevs x (List.mem_cons_of_mem _ hx))

/-- C4, counterexample: with two cycles in flight, the newer one answers first with no bus and
the view is cleared; the answer of the older cycle, arriving later, is applied all the same and
puts its marker and its current and next stop back on display. An older cycle that fails after
the newer one has started also sets the error indicator. -/
theorem stale_response_counterexample :
    (run distTo (some route12A) newerFirst (mount "12A" emptyView)).cycles = 2 ∧
    (run distTo (some route12A) newerFirst (mount "12A" emptyView)).view.markersRef = [] ∧
    (run distTo (some route12A) newerFirst (mount "12A" emptyView)).view.currentStop = "" ∧
    (run distTo (some route12A) olderLast (mount "12A" emptyView)).view.markersRef =
      [markerAtX 0] ∧
    (run distTo (some route12A) olderLast (mount "12A" emptyView)).view.currentStop = "X" ∧
    (run distTo (some route12A) olderLast (mount "12A" emptyView)).view.nextStop = "Y" ∧
    (run distTo (some route12A) [Event.tick, Event.settle 0 FetchResult.notOk]
      (mount "12A" emptyView)).view.error = "Failed to fetch active buses" := by
  have hloc : locate distTo ⟨some 19, some 72.8⟩ (some "UP") route12A = (0, 1) := by
    unfold locate
    rw [bestIdx_busAtX]
    simp [nextIdx, dirUp_UP, route12A]
  have hlen : 0 < route12A.length := by simp [route12A]
  have hX : stopName route12A 0 = "X" := by simp [stopName, route12A]
  have hY : stopName route12A 1 = "Y" := by simp [stopName, route12A]
  refine ⟨?_, ?_, ?_, ?_, ?_, ?_, ?_⟩
  · simp [run, step, newerFirst, mount, emptyView, fetchStart, fetchResume]
  · simp [run, step, newerFirst, mount, emptyView, fetchStart, fetchResume]
  · simp [run, step, newerFirst, mount, emptyView, fetchStart, fetchResume]
  · simp [run, step, olderLast, newerFirst, mount, emptyView, fetchStart, fetchResume, drawAll,
      drawBus, busAtX, hlen, Direction.text, markerAtX, busPointOf, Direction.spoken]
  · simp [run, step, olderLast, newerFirst, mount, emptyView, fetchStart, fetchResume, drawAll,
      drawBus, busAtX, hlen, Direction.text, busPointOf, Direction.spoken, Parsed.toNumber,
      hloc, hX]
  · simp [run, step, olderLast, newerFirst, mount, emptyView, fetchStart, fetchResume, drawAll,
      drawBus, busAtX, hlen, Direction.text, busPointOf, Direction.spoken, Parsed.toNumber,
      hloc, hY]
  · simp [run, step, mount, emptyView, fetchStart, fetchResume, onCatch]

/-- C4, amended: a tick of a live polling effect keeps every older cycle in flight and adds the
new one, and while the effect is live a cycle in flight stays in flight through any ticks and
any answers of other cycles, and its response is applied when it arrives, newer cycles or not;
a response is discarded only after the cleanup of the effect has aborted the shared controller,
and from then on no event changes the markers, the error indicator or the current and next
stop. -/
theorem responses_applied_until_cleanup (distJs : BusPoint → Stop → Option ℝ)
    (stops : Option (List Stop)) (st : Poll) (k : ℕ) (r : FetchResult)
    (between later : List Event) :
    (st.timerId = true →
      (step distJs stops st Event.tick).pending = st.pending ++ [st.cycles] ∧
      (step distJs stops st Event.tick).cycles = st.cycles + 1 ∧
      (step distJs stops st Event.tick).signalAborted = st.signalAborted) ∧
    (k ∈ st.pending → st.signalAborted = false →
      (∀ e ∈ between, e ≠ Event.cleanup ∧ ∀ r', e ≠ Event.settle k r') →
      k ∈ (run distJs stops between st).pending ∧
      (step distJs stops (run distJs stops between st) (Event.settle k r)).view =
        fetchResume distJs stops (run distJs stops between st).view r) ∧
    (run distJs stops later (step distJs stops st Event.cleanup)).view = st.view := by
  refine ⟨?_, ?_, ?_⟩
  · intro ht
    simp [step, ht]
  · intro hk ha hbetween
    obtain ⟨h1, h2⟩ := pending_run distJs stops between st k hk ha hbetween
    refine ⟨h1, ?_⟩
    simp [step, h1, h2]
  · exact run_view_of_aborted distJs stops later _ rfl rfl

/-- C4, witness: cycle 0 is in flight at mount; a tick starts cycle 1, which answers first;
cycle 0 is still in flight and its answer is applied; after a cleanup it changes nothing. -/
theorem responses_applied_until_cleanup_witness :
    (mount "12A" emptyView).timerId = true ∧
    (step distTo (some route12A) (mount "12A" emptyView) Event.tick).pending = [0, 1] ∧
    0 ∈ (run distTo (some route12A) newerFirst (mount "12A" emptyView)).pending ∧
    (step distTo (some route12A) (run distTo (some route12A) newerFirst (mount "12A" emptyView))
      (Event.settle 0 (FetchResult.ok (Payload.array [Item.bus busAtX])))).view =
      fetchResume distTo (some route12A)
        (run distTo (some route12A) newerFirst (mount "12A" emptyView)).view
        (FetchResult.ok (Payload.array [Item.bus busAtX])) ∧
    (run distTo (some route12A)
      [Event.settle 0 (FetchResult.ok (Payload.array [Item.bus busAtX]))]
      (step distTo (some route12A) (mount "12A" emptyView) Event.cleanup)).view =
      (mount "12A" emptyView).view := by
  have ht : (mount "12A" emptyView).timerId = true := by simp [mount]
  have h0 : 0 ∈ (mount "12A" emptyView).pending := by simp [mount]
  have ha : (mount "12A" emptyView).signalAborted = false := by simp [mount]
  have hb : ∀ e ∈ newerFirst, e ≠ Event.cleanup ∧ ∀ r', e ≠ Event.settle 0 r' := by
    intro e he
    simp only [newerFirst, List.mem_cons, List.mem_singleton, List.not_mem_nil, or_false] at he
    rcases he with h | h <;> subst h <;> simp
  have h := responses_applied_until_cleanup distTo (some route12A) (mount "12A" emptyView) 0
    (FetchResult.ok (Payload.array [Item.bus busAtX])) newerFirst
    [Event.settle 0 (FetchResult.ok (Payload.array [Item.bus busAtX]))]
  have h1 := (h.1 ht).1
  have h2 := h.2.1 h0 ha hb
  refine ⟨ht, ?_, h2.1, h2.2, h.2.2⟩
  rw [h1]; simp [mount]

/-- C8: a cycle whose fetch fails with a transport error (a rejection other than an abort, or a
response that is not ok) sets the error indicator to a non-empty message and leaves
`markersRef`, the markers on the map and the current and next stop as they were, both when the
cycle starts and when its fetch fails; the interval stays registered, and the next tick starts
a new cycle. -/
theorem failed_cycle_keeps_view (distJs : BusPoint → Stop → Option ℝ)
    (stops : Option (List Stop)) (st : Poll) (k : ℕ) (r : FetchResult) (hk : k ∈ st.pending)
    (hlive : st.signalAborted = false)
    (hfail : r = FetchResult.notOk ∨
      ∃ name, r = FetchResult.rejected name ∧ name ≠ "AbortError") :
    SameDisplay (step distJs stops st Event.tick).view st.view ∧
    (step distJs stops st (Event.settle k r)).view.error = "Failed to fetch active buses" ∧
    (step distJs stops st (Event.settle k r)).view.error ≠ "" ∧
    SameDisplay (step distJs stops st (Event.settle k r)).view st.view ∧
    (step distJs stops st (Event.settle k r)).timerId = st.timerId ∧
    (st.timerId = true →
      (step distJs stops st (Event.settle k r)).cycles ∈
        (step distJs stops (step distJs stops st (Event.settle k r)) Event.tick).pending ∧
      (step distJs stops (step distJs stops st (Event.settle k r)) Event.tick).cycles =
        (step distJs stops st (Event.settle k r)).cycles + 1) := by
  have htick : SameDisplay (step distJs stops st Event.tick).view st.view := by
    by_cases ht : st.timerId = true
    · simp [SameDisplay, step, ht, fetchStart]
    · simp [SameDisplay, step, ht]
  refine ⟨htick, ?_⟩
  rcases hfail with h | ⟨name, h, hn⟩
  · subst h
    simp [SameDisplay, step, hk, hlive, fetchResume, onCatch]
    intro ht; simp [ht]
  · subst h
    simp [SameDisplay, step, hk, hlive, fetchResume, onCatch, hn]
    intro ht; simp [ht]

/-- C8, witness: the first cycle of a view that shows a bus fails with a response that is not
ok. -/
theorem failed_cycle_keeps_view_witness :
    0 ∈ (mount "12A" shownView).pending ∧
    (step distTo (some route12A) (mount "12A" shownView)
      (Event.settle 0 FetchResult.notOk)).view.error = "Failed to fetch active buses" ∧
    SameDisplay (step distTo (some route12A) (mount "12A" shownView)
      (Event.settle 0 FetchResult.notOk)).view shownView ∧
    (step distTo (some route12A) (mount "12A" shownView)
      (Event.settle 0 FetchResult.notOk)).timerId = true := by
  have h0 : 0 ∈ (mount "12A" shownView).pending := by simp [mount]
  have h := failed_cycle_keeps_view distTo (some route12A) (mount "12A" shownView) 0
    FetchResult.notOk h0 (by simp [mount]) (Or.inl rfl)
  refine ⟨h0, h.2.1, ?_, ?_⟩
  · have := h.2.2.2.1
    simpa [SameDisplay, mount, fetchStart] using this
  · have := h.2.2.2.2.1
    simpa [mount] using this

/-- C9, counterexample: on a view that shows a bus at stop `X`, a cycle answered by a payload
that is not an array keeps the marker and the current stop, while a cycle answered by the empty
array removes the marker and empties the current and next stop. -/
theorem non_array_as_empty_counterexample :
    (step distTo (some route12A) (mount "12A" shownView)
      (Event.settle 0 (FetchResult.ok Payload.notArray))).view.markersRef = [markerAtX 0] ∧
    (step distTo (some route12A) (mount "12A" shownView)
      (Event.settle 0 (FetchResult.ok Payload.notArray))).view.currentStop = "X" ∧
    (step distTo (some route12A) (mount "12A" shownView)
      (Event.settle 0 (FetchResult.ok (Payload.array [])))).view.markersRef = [] ∧
    (step distTo (some route12A) (mount "12A" shownView)
      (Event.settle 0 (FetchResult.ok (Payload.array [])))).view.mapObj = some [] ∧
    (step distTo (some route12A) (mount "12A" shownView)
      (Event.settle 0 (FetchResult.ok (Payload.array [])))).view.currentStop = "" := by
  refine ⟨?_, ?_, ?_, ?_, ?_⟩ <;>
    simp [step, mount, shownView, fetchStart, fetchResume, removeLayer, markerFor, markerAtX]

/-- C9, amended: a cycle whose response payload is not an array is not an error and changes
nothing: the error indicator stays cleared and the markers, the current stop and the next stop
stay as they were. Its effect is that of a cycle answered by the empty array exactly when there
is no map object, or when no marker is held and the current and next stop are already empty. -/
theorem non_array_leaves_view (distJs : BusPoint → Stop → Option ℝ)
    (stops : Option (List Stop)) (v : View) :
    fetchAndRender distJs stops v (FetchResult.ok Payload.notArray) = fetchStart v ∧
    (fetchAndRender distJs stops v (FetchResult.ok Payload.notArray)).error = "" ∧
    SameDisplay (fetchAndRender distJs stops v (FetchResult.ok Payload.notArray)) v ∧
    (fetchAndRender distJs stops v (FetchResult.ok Payload.notArray) =
        fetchAndRender distJs stops v (FetchResult.ok (Payload.array [])) ↔
      v.mapObj = none ∨ (v.markersRef = [] ∧ v.currentStop = "" ∧ v.nextStop = "")) := by
  refine ⟨rfl, rfl, ⟨rfl, rfl, rfl, rfl⟩, ?_⟩
  obtain ⟨e, c, n, ms, mo, nm⟩ := v
  cases mo with
  | none => simp [fetchAndRender, fetchResume, fetchStart]
  | some onMap =>
    simp only [fetchAndRender, fetchResume, fetchStart, List.length_nil, if_true,
      View.mk.injEq, true_and, and_true, Option.some.injEq, false_or, reduceCtorEq]
    constructor
    · rintro ⟨h1, h2, h3, _⟩
      exact ⟨h3, h1, h2⟩
    · rintro ⟨h1, h2, h3⟩
      subst h1 h2 h3
      simp

theorem markersFor_length (l : List Bus) (n : ℕ) : (markersFor l n).length = l.length := by
  induction l generalizing n with
  | nil => rfl
  | cons b rest ih => simp [markersFor, ih]

theorem markersFor_getElem? (l : List Bus) (n i : ℕ) :
    (markersFor l n)[i]? = (l[i]?).map (fun b => b.marker (n + i)) := by
  induction l generalizing n i with
  | nil => simp [markersFor]
  | cons b rest ih =>
    cases i with
    | zero => simp [markersFor]
    | succ i =>
      simp only [markersFor, List.getElem?_cons_succ]
      rw [ih]
      have : n + 1 + i = n + (i + 1) := by omega
      rw [this]

theorem markersFor_id (l : List Bus) (n : ℕ) (m : Marker) (hm : m ∈ markersFor l n) :
    n ≤ m.id ∧ m.id < n + l.length := by
  induction l generalizing n with
  | nil => simp [markersFor] at hm
  | cons b rest ih =>
    simp only [markersFor, List.mem_cons] at hm
    rcases hm with h | h
    · subst h
      simp [Bus.marker, markerFor]
    · have := ih (n + 1) h
      simp only [List.length_cons]
      omega

theorem drawBus_of_readable (b : Bus) (ly : Layers) (h : b.Readable) :
    drawBus b ly =
      some (if b.isFinite then
        ⟨ly.markersRef ++ [b.marker ly.nextMarker], ly.onMap ++ [b.marker ly.nextMarker],
          ly.nextMarker + 1⟩
      else ly) := by
  obtain ⟨h1, h2, h3⟩ := h
  obtain ⟨lat, lng, r, bi, s, d⟩ := b
  cases lat with
  | throws => exact absurd rfl h1
  | notFinite =>
    cases lng with
    | throws => exact absurd rfl h2
    | notFinite => simp [drawBus, Bus.isFinite]
    | finite y => simp [drawBus, Bus.isFinite]
  | finite x =>
    cases lng with
    | throws => exact absurd rfl h2
    | notFinite => simp [drawBus, Bus.isFinite]
    | finite y =>
      obtain ⟨t1, t2, t3, t4⟩ := h3 (by simp [Bus.isFinite])
      simp only at t1 t2 t3 t4
      obtain ⟨r', hr⟩ := Option.ne_none_iff_exists'.mp t1
      obtain ⟨bi', hbi⟩ := Option.ne_none_iff_exists'.mp t2
      obtain ⟨s', hs⟩ := Option.ne_none_iff_exists'.mp t3
      obtain ⟨d', hd⟩ := Option.ne_none_iff_exists'.mp t4
      subst hr hbi hs
      simp [drawBus, Bus.isFinite, Bus.marker, hd, Parsed.toNumber]

theorem drawAll_of_readable (data : List Item) (ly : Layers)
    (h : ∀ it ∈ data, it.Readable) :
    drawAll data ly =
      (⟨ly.markersRef ++ markersFor (finiteBuses data) ly.nextMarker,
        ly.onMap ++ markersFor (finiteBuses data) ly.nextMarker,
        ly.nextMarker + (finiteBuses data).length⟩, false) := by
  induction data generalizing ly with
  | nil => simp [drawAll, finiteBuses, markersFor]
  | cons it rest ih =>
    have hrest : ∀ it ∈ rest, it.Readable := fun x hx => h x (List.mem_cons_of_mem _ hx)
    have hit := h it (List.mem_cons_self _ _)
    cases it with
    | null => exact absurd hit (by simp [Item.Readable])
    | falsy => simp [drawAll, finiteBuses, ih _ hrest]
    | bus b =>
      simp only [drawAll]
      rw [drawBus_of_readable b ly hit]
      simp only
      rw [ih _ hrest]
      by_cases hf : b.isFinite = true
      · simp [finiteBuses, hf, markersFor, List.append_assoc]
        omega
      · simp [finiteBuses, hf]

theorem drawBus_appends (b : Bus) (ly drawn : Layers) (h : drawBus b ly = some drawn) :
    ∃ new, drawn.markersRef = ly.markersRef ++ new ∧ drawn.onMap = ly.onMap ++ new ∧
      ly.nextMarker ≤ drawn.nextMarker ∧
      ∀ m ∈ new, ly.nextMarker ≤ m.id ∧ m.id < drawn.nextMarker := by
  unfold drawBus at h
  split at h
  · cases h
  · cases h
  · split at h
    · simp only [Option.some.injEq] at h
      subst h
      refine ⟨[_], rfl, rfl, by simp, ?_⟩
      intro m hm
      simp only [List.mem_singleton] at hm
      subst hm
      simp [markerFor]
    · cases h
  · simp only [Option.some.injEq] at h
    subst h
    exact ⟨[], by simp⟩

theorem drawAll_appends (data : List Item) (ly : Layers) :
    ∃ new, (drawAll data ly).1.markersRef = ly.markersRef ++ new ∧
      (drawAll data ly).1.onMap = ly.onMap ++ new ∧
      ly.nextMarker ≤ (drawAll data ly).1.nextMarker ∧
      ∀ m ∈ new, ly.nextMarker ≤ m.id ∧ m.id < (drawAll data ly).1.nextMarker := by
  induction data generalizing ly with
  | nil => exact ⟨[], by simp [drawAll]⟩
  | cons it rest ih =>
    cases it with
    | null => exact ⟨[], by simp [drawAll]⟩
    | falsy => simpa [drawAll] using ih ly
    | bus b =>
      simp only [drawAll]
      cases hb : drawBus b ly with
      | none => exact ⟨[], by simp⟩
      | some drawn =>
        simp only
        obtain ⟨n1, a1, a2, a3, a4⟩ := drawBus_appends b ly drawn hb
        obtain ⟨n2, b1, b2, b3, b4⟩ := ih drawn
        refine ⟨n1 ++ n2, ?_, ?_, by omega, ?_⟩
        · rw [b1, a1, List.append_assoc]
        · rw [b2, a2, List.append_assoc]
        · intro m hm
          rcases List.mem_append.mp hm with h | h
          · have := a4 m h
            omega
          · have := b4 m h
            omega

theorem mem_foldl_removeLayer (ms l : List Marker) (x : Marker)
    (hx : x ∈ ms.foldl removeLayer l) : x ∈ l ∧ ∀ m ∈ ms, x.id ≠ m.id := by
  induction ms generalizing l with
  | nil => exact ⟨by simpa using hx, by simp⟩
  | cons m rest ih =>
    simp only [List.foldl_cons] at hx
    obtain ⟨h1, h2⟩ := ih (removeLayer l m) hx
    simp only [removeLayer, List.mem_filter, decide_eq_true_eq] at h1
    refine ⟨h1.1, ?_⟩
    intro m' hm'
    rcases List.mem_cons.mp hm' with h | h
    · rw [h]; exact h1.2
    · exact h2 m' h

theorem foldl_removeLayer_self (ms : List Marker) : ms.foldl removeLayer ms = [] := by
  apply List.eq_nil_iff_forall_not_mem.mpr
  intro x hx
  obtain ⟨h1, h2⟩ := mem_foldl_removeLayer ms ms x hx
  exact h2 x h1 rfl

theorem fetchResume_array_layers (distJs : BusPoint → Stop → Option ℝ)
    (stops : Option (List Stop)) (v : View) (onMap : List Marker) (data : List Item)
    (hmap : v.mapObj = some onMap) :
    (fetchResume distJs stops v (FetchResult.ok (Payload.array data))).markersRef =
      (drawAll data ⟨[], v.markersRef.foldl removeLayer onMap, v.nextMarker⟩).1.markersRef ∧
    (fetchResume distJs stops v (FetchResult.ok (Payload.array data))).mapObj =
      some (drawAll data ⟨[], v.markersRef.foldl removeLayer onMap, v.nextMarker⟩).1.onMap ∧
    (fetchResume distJs stops v (FetchResult.ok (Payload.array data))).nextMarker =
      (drawAll data ⟨[], v.markersRef.foldl removeLayer onMap, v.nextMarker⟩).1.nextMarker := by
  cases data with
  | nil => simp [fetchResume, hmap, drawAll]
  | cons it rest =>
    simp only [fetchResume, hmap, List.length_cons, Nat.add_one_ne_zero, if_false]
    split_ifs with hthrew
    · simp [onCatch]
    · split
      · split_ifs
        · split <;> simp [onCatch]
        · simp
      · simp

theorem synced_fetchResume (distJs : BusPoint → Stop → Option ℝ)
    (stops : Option (List Stop)) (v : View) (r : FetchResult) (h : Synced v) :
    Synced (fetchResume distJs stops v r) := by
  cases r with
  | rejected name =>
    by_cases hn : name = "AbortError"
    · simpa [fetchResume, onCatch, hn] using h
    · simpa [fetchResume, onCatch, hn, Synced] using h
  | notOk => simpa [fetchResume, onCatch, Synced] using h
  | ok data =>
    cases data with
    | notArray => simpa [fetchResume] using h
    | array data =>
      cases hmap : v.mapObj with
      | none => simpa [fetchResume, hmap] using h
      | some onMap =>
        obtain ⟨h1, h2, h3⟩ := fetchResume_array_layers distJs stops v onMap data hmap
        have hon : onMap = v.markersRef := by
          rcases h.1 with h0 | h0
          · rw [hmap] at h0; cases h0
          · rw [hmap] at h0; exact Option.some.inj h0
        rw [hon, foldl_removeLayer_self] at h1 h2 h3
        obtain ⟨new, e1, e2, _, e4⟩ := drawAll_appends data ⟨[], [], v.nextMarker⟩
        refine ⟨Or.inr ?_, ?_⟩
        · rw [h2, h1, e1, e2]
        · intro m hm
          rw [h1, e1] at hm
          rw [h3]
          exact (e4 m (by simpa using hm)).2

theorem synced_run (distJs : BusPoint → Stop → Option ℝ) (stops : Option (List Stop))
    (evs : List Event) (st : Poll) (h : Synced st.view) :
    Synced (run distJs stops evs st).view := by
  induction evs generalizing st with
  | nil => exact h
  | cons e rest ih =>
    apply ih
    cases e with
    | tick =>
      by_cases ht : st.timerId = true
      · simpa [step, ht, fetchStart, Synced] using h
      · simpa [step, ht] using h
    | settle k r =>
      by_cases hk : k ∈ st.pending
      · simp only [step, hk, if_true]
        exact synced_fetchResume _ _ _ _ h
      · simpa [step, hk] using h
    | cleanup => simpa [step] using h

theorem synced_mount_emptyView (routeNo : String) : Synced (mount routeNo emptyView).view := by
  by_cases h : routeNo = ""
  · simp [mount, h, Synced, emptyView]
  · simp [mount, h, Synced, emptyView, fetchStart]

/-- C11, counterexample: on a response array with a `null` between two vehicles of finite
coordinates, the drawing loop throws at the `null`: only the first vehicle gets a marker, the
second one gets none, and the error indicator is set. The same happens on an array without
`null` whose middle vehicle has a `lat` that cannot be converted to a string. -/
theorem vehicle_update_counterexample :
    (finiteBuses nullBetween).length = 2 ∧
    (fetchAndRender distTo (some route12A) emptyView
      (FetchResult.ok (Payload.array nullBetween))).markersRef = [markerAtX 0] ∧
    (fetchAndRender distTo (some route12A) emptyView
      (FetchResult.ok (Payload.array nullBetween))).mapObj = some [markerAtX 0] ∧
    (fetchAndRender distTo (some route12A) emptyView
      (FetchResult.ok (Payload.array nullBetween))).error = "Failed to fetch active buses" ∧
    (finiteBuses badBetween).length = 2 ∧
    (fetchAndRender distTo (some route12A) emptyView
      (FetchResult.ok (Payload.array badBetween))).markersRef = [markerAtX 0] ∧
    (fetchAndRender distTo (some route12A) emptyView
      (FetchResult.ok (Payload.array badBetween))).error = "Failed to fetch active buses" := by
  refine ⟨?_, ?_, ?_, ?_, ?_, ?_, ?_⟩
  · simp [finiteBuses, nullBetween, busAtX, busAtY, Bus.isFinite]
  · simp [fetchAndRender, fetchResume, fetchStart, emptyView, nullBetween, drawAll, drawBus,
      busAtX, onCatch, Direction.text, markerAtX]
  · simp [fetchAndRender, fetchResume, fetchStart, emptyView, nullBetween, drawAll, drawBus,
      busAtX, onCatch, Direction.text, markerAtX]
  · simp [fetchAndRender, fetchResume, fetchStart, emptyView, nullBetween, drawAll, drawBus,
      busAtX, onCatch, Direction.text]
  · simp [finiteBuses, badBetween, busAtX, busAtY, busBadLat, Bus.isFinite]
  · simp [fetchAndRender, fetchResume, fetchStart, emptyView, badBetween, drawAll, drawBus,
      busAtX, busBadLat, onCatch, Direction.text, markerAtX]
  · simp [fetchAndRender, fetchResume, fetchStart, emptyView, badBetween, drawAll, drawBus,
      busAtX, busBadLat, onCatch, Direction.text]

/-- C11, amended: after a vehicle update applied with the map present, for a response array
whose elements the drawing loop reads without throwing (no `null` element, and no vehicle with
a `lat` or `lng`, or with finite coordinates and a `route_no`, `bus_id`, `status` or
`direction`, that cannot be converted to a string) and a view whose map shows the markers of
`markersRef`, the markers of the previous update are no longer on the map, and `markersRef` and
the map both hold exactly one new marker per vehicle of the response whose `lat` and `lng`
parse to finite numbers, in response order; the other elements add no marker and stop no other
marker from being drawn. -/
theorem vehicle_update_markers (distJs : BusPoint → Stop → Option ℝ)
    (stops : Option (List Stop)) (v : View) (data : List Item) (hsync : Synced v)
    (hmap : v.mapObj ≠ none) (hitems : ∀ it ∈ data, it.Readable) :
    (fetchResume distJs stops v (FetchResult.ok (Payload.array data))).markersRef =
      markersFor (finiteBuses data) v.nextMarker ∧
    (fetchResume distJs stops v (FetchResult.ok (Payload.array data))).mapObj =
      some (markersFor (finiteBuses data) v.nextMarker) ∧
    (∀ m ∈ v.markersRef, m ∉ markersFor (finiteBuses data) v.nextMarker) ∧
    (markersFor (finiteBuses data) v.nextMarker).length = (finiteBuses data).length ∧
    (∀ i : ℕ, (markersFor (finiteBuses data) v.nextMarker)[i]? =
      ((finiteBuses data)[i]?).map (fun b => b.marker (v.nextMarker + i))) ∧
    Synced (fetchResume distJs stops v (FetchResult.ok (Payload.array data))) := by
  obtain ⟨onMap, hon⟩ := Option.ne_none_iff_exists'.mp hmap
  obtain ⟨h1, h2, _⟩ := fetchResume_array_layers distJs stops v onMap data hon
  have hsame : onMap = v.markersRef := by
    rcases hsync.1 with h0 | h0
    · exact absurd h0 hmap
    · rw [hon] at h0; exact Option.some.inj h0
  rw [hsame, foldl_removeLayer_self, drawAll_of_readable data _ hitems] at h1 h2
  refine ⟨by simpa using h1, by simpa using h2, ?_, markersFor_length _ _,
    fun i => markersFor_getElem? _ _ i, synced_fetchResume _ _ _ _ hsync⟩
  intro m hm hnew
  have := (markersFor_id _ _ m hnew).1
  have := hsync.2 m hm
  omega

/-- C11, witness: a view that shows one bus receives a response with a vehicle without a
finite latitude, a falsy element and a vehicle of finite coordinates. -/
theorem vehicle_update_markers_witness :
    Synced shownView ∧ shownView.mapObj ≠ none ∧
    (fetchResume distTo (some route12A) shownView (FetchResult.ok (Payload.array
      [Item.bus busNoLat, Item.falsy, Item.bus busAtY]))).markersRef =
        [markerFor 1 19.01 72.81 "12A" "8" "" "UP"] ∧
    (fetchResume distTo (some route12A) shownView (FetchResult.ok (Payload.array
      [Item.bus busNoLat, Item.falsy, Item.bus busAtY]))).mapObj =
        some [markerFor 1 19.01 72.81 "12A" "8" "" "UP"] := by
  have hs : Synced shownView := by simp [Synced, shownView, markerAtX, markerFor]
  have hm : shownView.mapObj ≠ none := by simp [shownView]
  have hr : ∀ it ∈ [Item.bus busNoLat, Item.falsy, Item.bus busAtY], it.Readable := by
    intro it hit
    simp only [List.mem_cons, List.mem_singleton, List.not_mem_nil, or_false] at hit
    rcases hit with h | h | h <;> subst h <;>
      simp [Item.Readable, Bus.Readable, busNoLat, busAtY, Bus.isFinite, Direction.text]
  have h := vehicle_update_markers distTo (some route12A) shownView
    [Item.bus busNoLat, Item.falsy, Item.bus busAtY] hs hm hr
  have e : markersFor (finiteBuses [Item.bus busNoLat, Item.falsy, Item.bus busAtY])
      shownView.nextMarker = [markerFor 1 19.01 72.81 "12A" "8" "" "UP"] := by
    simp [finiteBuses, markersFor, busNoLat, busAtY, shownView, Bus.isFinite, Bus.marker,
      Parsed.toNumber, Direction.text]
  rw [e] at h
  exact ⟨hs, hm, h.1, h.2.1⟩

end ActiveRouteMap

/-- C10: for every payload of a successful search response, the list set by `SearchBar` and
the list set by `SearchResults` are both the normalised list of the specification (the payload
when it is an array, its `response` field when that is an array, else the empty list), and so
they are equal. -/
theorem search_normalisation (data : Json) :
    SearchBar.onOk data = normaliseSpec data ∧ SearchResults.onOk data = normaliseSpec data ∧
    SearchBar.onOk data = SearchResults.onOk data := by
  have h1 : SearchBar.onOk data = normaliseSpec data := by
    cases data with
    | obj fields =>
      simp only [SearchBar.onOk, Json.asArray, Json.field, normaliseSpec]
      cases h : fields.lookup "response" with
      | none => rfl
      | some r => cases r <;> rfl
    | _ => rfl
  have h2 : SearchResults.onOk data = normaliseSpec data := by
    cases data with
    | obj fields =>
      simp only [SearchResults.onOk, Json.asArray, Json.field, normaliseSpec]
      cases h : fields.lookup "response" with
      | none => rfl
      | some r => cases r <;> rfl
    | _ => rfl
  exact ⟨h1, h2, h1.trans h2.symm⟩

namespace SearchBar

theorem armed_start (st : State) (s : String) (hquiet : st.timers = [])
    (hchange : s ≠ st.query) (hs : trim s ≠ "") : Armed (setQuery s st) st.requests s := by
  unfold setQuery
  rw [if_neg hchange]
  cases hc : st.cleanup with
  | none =>
    refine ⟨?_, ?_, st.fresh, ?_, ?_⟩ <;> simp [effect, runCleanup, hc, hs, hquiet]
  | some ct =>
    obtain ⟨c, t⟩ := ct
    refine ⟨?_, ?_, st.fresh, ?_, ?_⟩ <;> simp [effect, runCleanup, hc, hs, hquiet]

theorem armed_next (st : State) (reqs : List Request) (q s : String) (gap : ℕ)
    (h : Armed st reqs q) (hgap : gap < 300) (hchange : s ≠ q) (hs : trim s ≠ "") :
    Armed (setQuery s (advance gap st)) reqs s := by
  obtain ⟨hq, hr, n, ht, hc⟩ := h
  have hdue : ¬ st.now + 300 ≤ st.now + gap := by omega
  have hadv : advance gap st = { st with now := st.now + gap } := by
    simp [advance, ht, hgap]
  rw [hadv]
  unfold setQuery
  have hne : ¬ s = st.query := by rw [hq]; exact hchange
  simp only [hne, if_false]
  refine ⟨?_, ?_, st.fresh, ?_, ?_⟩ <;> simp [effect, runCleanup, hc, hs, ht, hr]

theorem armed_burst (rest : List (ℕ × String)) (st : State) (reqs : List Request) (q : String)
    (h : Armed st reqs q) (hchange : List.Chain (fun a b => b ≠ a) q (rest.map Prod.snd))
    (hs : ∀ p ∈ rest, trim p.2 ≠ "") (hgaps : ∀ p ∈ rest, p.1 < 300) :
    Armed (burst rest st) reqs ((q :: rest.map Prod.snd).getLast (List.cons_ne_nil _ _)) := by
  induction rest generalizing st q with
  | nil => simpa [burst] using h
  | cons p rest ih =>
    obtain ⟨gap, s⟩ := p
    simp only [List.map_cons, List.chain_cons] at hchange
    have h1 := armed_next st reqs q s gap h (hgaps (gap, s) (List.mem_cons_self _ _)) hchange.1
      (hs (gap, s) (List.mem_cons_self _ _))
    have h2 := ih (setQuery s (advance gap st)) s h1 hchange.2
      (fun p hp => hs p (List.mem_cons_of_mem _ hp))
      (fun p hp => hgaps p (List.mem_cons_of_mem _ hp))
    simpa [burst, List.getLast_cons] using h2

theorem armed_fires (st : State) (reqs : List Request) (q : String) (T : ℕ)
    (h : Armed st reqs q) (hT : 300 ≤ T) :
    (advance T st).requests.map Request.q = reqs.map Request.q ++ [trim q] ∧
    (advance T st).timers = [] := by
  obtain ⟨_, hr, n, ht, _⟩ := h
  have hdue : st.now + 300 ≤ st.now + T := by omega
  simp [advance, ht, hdue, fire, hr]

/-- C5: from a state with no pending timer, a burst of non-blank query changes, each made less
than 300 ms after the previous one, issues no request while it lasts, every timer but the last
being cleared before it is due; once the quiet period has passed after the last change, exactly
one request has been issued, carrying the trimmed text of the last query of the burst, and no
timer is pending. -/
theorem debounce_burst (st : State) (q0 : String) (rest : List (ℕ × String)) (T : ℕ)
    (hquiet : st.timers = [])
    (hchange : List.Chain (fun a b => b ≠ a) st.query (q0 :: rest.map Prod.snd))
    (hnonblank : ∀ s ∈ q0 :: rest.map Prod.snd, trim s ≠ "")
    (hgaps : ∀ p ∈ rest, p.1 < 300) (hT : 300 ≤ T) :
    (burst rest (setQuery q0 st)).requests = st.requests ∧
    (burst rest (setQuery q0 st)).timers.length = 1 ∧
    (advance T (burst rest (setQuery q0 st))).requests.map Request.q =
      st.requests.map Request.q ++
        [trim ((q0 :: rest.map Prod.snd).getLast (List.cons_ne_nil _ _))] ∧
    (advance T (burst rest (setQuery q0 st))).timers = [] := by
  simp only [List.chain_cons] at hchange
  have h0 := armed_start st q0 hquiet hchange.1 (hnonblank q0 (List.mem_cons_self _ _))
  have h1 := armed_burst rest (setQuery q0 st) st.requests q0 h0 hchange.2
    (fun p hp => hnonblank p.2 (List.mem_cons_of_mem _ (List.mem_map_of_mem _ hp))) hgaps
  have h2 := armed_fires _ _ _ T h1 hT
  obtain ⟨_, hr, n, ht, _⟩ := h1
  exact ⟨hr, by rw [ht]; rfl, h2.1, h2.2⟩

/-- C5, witness: the inputs `A`, `AB`, `ABC`, typed 100 ms apart after the first render, give
one request, for `ABC`. -/
theorem debounce_burst_witness :
    (burst [(100, "AB"), (100, "ABC")] (setQuery "A" mount)).requests = [] ∧
    (advance 300 (burst [(100, "AB"), (100, "ABC")] (setQuery "A" mount))).requests.map
      Request.q = ["ABC"] := by
  have hm : mount = ⟨"", [], 0, [], none, [], [], [], 0⟩ := by
    simp [mount, effect, trim]
  have h := debounce_burst mount "A" [(100, "AB"), (100, "ABC")] 300 (by rw [hm])
    (by rw [hm]; simp) (by decide) (by decide) (by decide)
  exact ⟨h.1, by simpa using h.2.2.1⟩

end SearchBar

namespace SearchBar

theorem trim_of_blank (s : String) (h : ∀ c ∈ s.data, isTrimChar c = true) : trim s = "" := by
  unfold trim
  have : s.data.dropWhile isTrimChar = [] := List.dropWhile_eq_nil_iff.mpr h
  rw [this]
  rfl

theorem getElem?_append_one (l : List Request) (r req : Request) (i : ℕ)
    (h : (l ++ [r])[i]? = some req) : l[i]? = some req ∨ req = r := by
  rcases Nat.lt_or_ge i l.length with hlt | hge
  · left; rwa [List.getElem?_append_left hlt] at h
  · right
    rw [List.getElem?_append_right hge] at h
    cases hk : i - l.length with
    | zero => rw [hk] at h; simpa using h.symm
    | succ k => rw [hk] at h; simp at h

theorem tidy_mount : Tidy mount := by
  have hm : mount = ⟨"", [], 0, [], none, [], [], [], 0⟩ := by
    simp [mount, effect, trim]
  rw [hm]
  exact ⟨by simp, by simp⟩

theorem quiet_after_cleanup (st : State) (s : String) (h : Tidy st) :
    Quiet (runCleanup { st with query := s }) ∧
    (runCleanup { st with query := s }).requests = st.requests ∧
    (runCleanup { st with query := s }).pending = st.pending ∧
    (runCleanup { st with query := s }).query = s ∧
    (∀ c t, st.cleanup = some (c, t) → c ∈ (runCleanup { st with query := s }).aborted) := by
  obtain ⟨h1, h2⟩ := h
  cases hc : st.cleanup with
  | none =>
    have ht : st.timers = [] := by
      apply List.eq_nil_iff_forall_not_mem.mpr
      intro x hx
      have := h1 x hx
      rw [hc] at this; cases this
    refine ⟨⟨?_, ?_, ?_⟩, ?_, ?_, ?_, ?_⟩
    · simp [runCleanup, hc, ht]
    · simp [runCleanup, hc]
    · intro i hi req hreq
      simp only [runCleanup, hc] at hi hreq ⊢
      rcases h2 i hi req hreq with h3 | ⟨t, h3⟩
      · exact h3
      · rw [hc] at h3; cases h3
    · simp [runCleanup, hc]
    · simp [runCleanup, hc]
    · simp [runCleanup, hc]
    · intro c t hct; cases hct
  | some ct =>
    obtain ⟨c, t⟩ := ct
    refine ⟨⟨?_, ?_, ?_⟩, ?_, ?_, ?_, ?_⟩
    · simp only [runCleanup, hc]
      apply List.eq_nil_iff_forall_not_mem.mpr
      intro x hx
      simp only [List.mem_filter, decide_eq_true_eq] at hx
      have := h1 x hx.1
      rw [hc] at this
      simp only [Option.some.injEq, Prod.mk.injEq] at this
      exact hx.2 this.2.symm
    · simp [runCleanup, hc]
    · intro i hi req hreq
      simp only [runCleanup, hc] at hi hreq ⊢
      rcases h2 i hi req hreq with h3 | ⟨t', h3⟩
      · exact List.mem_append_left _ h3
      · rw [hc] at h3
        simp only [Option.some.injEq, Prod.mk.injEq] at h3
        rw [← h3.1]; simp
    · simp [runCleanup, hc]
    · simp [runCleanup, hc]
    · simp [runCleanup, hc]
    · intro c' t' hct
      simp only [Option.some.injEq, Prod.mk.injEq] at hct
      simp [runCleanup, hc, hct.1]

theorem tidy_of_quiet (st : State) (h : Quiet st) : Tidy st := by
  obtain ⟨h1, _, h3⟩ := h
  refine ⟨?_, ?_⟩
  · intro x hx; rw [h1] at hx; cases hx
  · intro i hi req hreq; exact Or.inl (h3 i hi req hreq)

theorem tidy_effect (st : State) (h : Quiet st) : Tidy (effect st) := by
  obtain ⟨h1, h2, h3⟩ := h
  unfold effect
  by_cases hq : trim st.query = ""
  · simp only [hq, if_true]
    refine ⟨?_, ?_⟩
    · intro x hx; simp only [h1] at hx; cases hx
    · intro i hi req hreq; exact Or.inl (h3 i hi req hreq)
  · simp only [hq, if_false]
    refine ⟨?_, ?_⟩
    · intro x hx
      simp only [h1, List.nil_append, List.mem_singleton] at hx
      subst hx; rfl
    · intro i hi req hreq; exact Or.inl (h3 i hi req hreq)

theorem tidy_setQuery (st : State) (s : String) (h : Tidy st) : Tidy (setQuery s st) := by
  unfold setQuery
  split_ifs
  · exact h
  · exact tidy_effect _ (quiet_after_cleanup st s h).1

theorem tidy_fire_all (due : List Timer) (st : State) (h : Tidy st)
    (hdue : ∀ x ∈ due, st.cleanup = some (x.controller, x.id)) :
    Tidy (due.foldl fire st) := by
  induction due generalizing st with
  | nil => exact h
  | cons t rest ih =>
    simp only [List.foldl_cons]
    apply ih
    · obtain ⟨h1, h2⟩ := h
      refine ⟨h1, ?_⟩
      intro i hi req hreq
      simp only [fire] at hi hreq ⊢
      rcases getElem?_append_one _ _ _ _ hreq with h3 | h3
      · rcases List.mem_append.mp hi with h4 | h4
        · exact h2 i h4 req h3
        · simp only [List.mem_singleton] at h4
          rw [h4, List.getElem?_eq_none (le_refl _)] at h3
          cases h3
      · right
        exact ⟨t.id, by rw [h3]; exact hdue t (List.mem_cons_self _ _)⟩
    · intro x hx
      exact hdue x (List.mem_cons_of_mem _ hx)

theorem tidy_advance (st : State) (dt : ℕ) (h : Tidy st) : Tidy (advance dt st) := by
  unfold advance
  apply tidy_fire_all
  · obtain ⟨h1, h2⟩ := h
    refine ⟨?_, h2⟩
    intro x hx
    exact h1 x (List.mem_of_mem_filter hx)
  · intro x hx
    exact h.1 x (List.mem_of_mem_filter hx)

theorem settle_frame (st : State) (i : ℕ) (r : FetchResult) :
    (settle i r st).timers = st.timers ∧ (settle i r st).cleanup = st.cleanup ∧
    (settle i r st).requests = st.requests ∧ (settle i r st).aborted = st.aborted ∧
    (∀ j ∈ (settle i r st).pending, j ∈ st.pending) := by
  unfold settle
  split_ifs with hi
  · split
    · split_ifs
      · exact ⟨rfl, rfl, rfl, rfl, fun j hj => List.mem_of_mem_erase hj⟩
      · cases r <;> exact ⟨rfl, rfl, rfl, rfl, fun j hj => List.mem_of_mem_erase hj⟩
    · exact ⟨rfl, rfl, rfl, rfl, fun j hj => hj⟩
  · exact ⟨rfl, rfl, rfl, rfl, fun j hj => hj⟩

theorem tidy_settle (st : State) (i : ℕ) (r : FetchResult) (h : Tidy st) :
    Tidy (settle i r st) := by
  obtain ⟨e1, e2, e3, e4, e5⟩ := settle_frame st i r
  obtain ⟨h1, h2⟩ := h
  refine ⟨?_, ?_⟩
  · intro x hx; rw [e1] at hx; rw [e2]; exact h1 x hx
  · intro j hj req hreq
    rw [e3] at hreq; rw [e4, e2]
    exact h2 j (e5 j hj) req hreq

theorem tidy_handleAll (evs : List Input) (st : State) (h : Tidy st) :
    Tidy (handleAll evs st) := by
  induction evs generalizing st with
  | nil => exact h
  | cons e rest ih =>
    apply ih
    cases e with
    | change s => exact tidy_setQuery st s h
    | wait dt => exact tidy_advance st dt h
    | response i r => exact tidy_settle st i r h

theorem quiet_advance (st : State) (dt : ℕ) (h : Quiet st) :
    Quiet (advance dt st) ∧ (advance dt st).suggestions = st.suggestions ∧
    (advance dt st).requests = st.requests := by
  obtain ⟨h1, h2, h3⟩ := h
  have e : advance dt st = { st with now := st.now + dt } := by
    simp [advance, h1]
  rw [e]
  exact ⟨⟨h1, h2, h3⟩, rfl, rfl⟩

theorem quiet_settle (st : State) (i : ℕ) (r : FetchResult) (h : Quiet st) :
    Quiet (settle i r st) ∧ (settle i r st).suggestions = st.suggestions ∧
    (settle i r st).requests = st.requests := by
  obtain ⟨e1, e2, e3, e4, e5⟩ := settle_frame st i r
  obtain ⟨h1, h2, h3⟩ := h
  refine ⟨⟨by rw [e1]; exact h1, by rw [e2]; exact h2, ?_⟩, ?_, e3⟩
  · intro j hj req hreq
    rw [e3] at hreq; rw [e4]
    exact h3 j (e5 j hj) req hreq
  · unfold settle
    split_ifs with hi
    · split
      · rename_i req hreq
        have := h3 i hi req hreq
        simp [this]
      · rfl
    · rfl

theorem quiet_handleAll (evs : List Input) (st : State) (h : Quiet st)
    (hevs : ∀ e ∈ evs, ∀ q, e ≠ Input.change q) :
    (handleAll evs st).suggestions = st.suggestions ∧
    (handleAll evs st).requests = st.requests ∧ (handleAll evs st).timers = [] := by
  induction evs generalizing st with
  | nil => exact ⟨rfl, rfl, h.1⟩
  | cons e rest ih =>
    have hrest : ∀ e ∈ rest, ∀ q, e ≠ Input.change q :=
      fun x hx => hevs x (List.mem_cons_of_mem _ hx)
    cases e with
    | change s => exact absurd rfl (hevs (Input.change s) (List.mem_cons_self _ _) s)
    | wait dt =>
      obtain ⟨q1, q2, q3⟩ := quiet_advance st dt h
      obtain ⟨r1, r2, r3⟩ := ih (advance dt st) q1 hrest
      exact ⟨by simp only [handleAll, handle]; rw [r1, q2],
        by simp only [handleAll, handle]; rw [r2, q3], by simpa [handleAll, handle] using r3⟩
    | response i r =>
      obtain ⟨q1, q2, q3⟩ := quiet_settle st i r h
      obtain ⟨r1, r2, r3⟩ := ih (settle i r st) q1 hrest
      exact ⟨by simp only [handleAll, handle]; rw [r1, q2],
        by simp only [handleAll, handle]; rw [r2, q3], by simpa [handleAll, handle] using r3⟩

/-- C12: when the query of the mounted component changes to a string that is empty or made of
white space only, the effect empties the suggestion list at once, leaves no timer pending and
issues no request; the timer of the previous query is cleared and its controller aborted, so
every request still pending has an aborted controller, and until the next query change no
passing of time and no settling fetch issues a request or changes the empty suggestion list. -/
theorem blank_query_clears (before : List Input) (s : String) (later : List Input)
    (hblank : ∀ c ∈ s.data, isTrimChar c = true)
    (hchange : s ≠ (handleAll before mount).query)
    (hlater : ∀ e ∈ later, ∀ q, e ≠ Input.change q) :
    (setQuery s (handleAll before mount)).suggestions = [] ∧
    (setQuery s (handleAll before mount)).timers = [] ∧
    (setQuery s (handleAll before mount)).cleanup = none ∧
    (setQuery s (handleAll before mount)).requests = (handleAll before mount).requests ∧
    (∀ c t, (handleAll before mount).cleanup = some (c, t) →
      c ∈ (setQuery s (handleAll before mount)).aborted) ∧
    (∀ i ∈ (setQuery s (handleAll before mount)).pending, ∀ req,
      (setQuery s (handleAll before mount)).requests[i]? = some req →
        req.controller ∈ (setQuery s (handleAll before mount)).aborted) ∧
    (handleAll later (setQuery s (handleAll before mount))).suggestions = [] ∧
    (handleAll later (setQuery s (handleAll before mount))).requests =
      (handleAll before mount).requests ∧
    (handleAll later (setQuery s (handleAll before mount))).timers = [] := by
  have htidy := tidy_handleAll before mount tidy_mount
  obtain ⟨hq, hreq, _, hquery, hab⟩ := quiet_after_cleanup (handleAll before mount) s htidy
  have htrim := trim_of_blank s hblank
  have e : setQuery s (handleAll before mount) =
      { runCleanup { handleAll before mount with query := s } with
        suggestions := [], cleanup := none } := by
    unfold setQuery
    rw [if_neg hchange]
    unfold effect
    simp [hquery, htrim]
  have hquiet : Quiet (setQuery s (handleAll before mount)) := by
    rw [e]; exact ⟨hq.1, rfl, hq.2.2⟩
  obtain ⟨l1, l2, l3⟩ := quiet_handleAll later _ hquiet hlater
  refine ⟨by rw [e], hquiet.1, hquiet.2.1, by rw [e]; exact hreq, ?_, hquiet.2.2, ?_, ?_, l3⟩
  · intro c t hct
    rw [e]; exact hab c t hct
  · rw [l1, e]
  · rw [l2, e]; exact hreq

end SearchBar

namespace SearchBar

/-- C12, witness: the query `A` has a request in flight when the query changes to two spaces;
the late answer of that request and the passing of a second change nothing. -/
theorem blank_query_clears_witness :
    (handleAll [Input.change "A", Input.wait 300] mount).pending = [0] ∧
    (setQuery "  " (handleAll [Input.change "A", Input.wait 300] mount)).suggestions = [] ∧
    (setQuery "  " (handleAll [Input.change "A", Input.wait 300] mount)).timers = [] ∧
    (handleAll [Input.response 0 (FetchResult.ok (Json.arr [Json.str "A1"])), Input.wait 1000]
      (setQuery "  " (handleAll [Input.change "A", Input.wait 300] mount))).suggestions = [] ∧
    (handleAll [Input.response 0 (FetchResult.ok (Json.arr [Json.str "A1"])), Input.wait 1000]
      (setQuery "  " (handleAll [Input.change "A", Input.wait 300] mount))).requests.map
        Request.q = ["A"] := by
  have hm : mount = ⟨"", [], 0, [], none, [], [], [], 0⟩ := by
    simp [mount, effect, trim]
  have hA : trim "A" = "A" := by decide
  have hst : handleAll [Input.change "A", Input.wait 300] mount =
      ⟨"A", [], 300, [], some (0, 0), [], [⟨"A", 0⟩], [0], 1⟩ := by
    rw [hm]
    simp [handleAll, handle, setQuery, runCleanup, effect, hA, advance, fire]
  have h := blank_query_clears [Input.change "A", Input.wait 300] "  "
    [Input.response 0 (FetchResult.ok (Json.arr [Json.str "A1"])), Input.wait 1000]
    (by decide) (by rw [hst]; decide) (by simp)
  refine ⟨by rw [hst], h.1, h.2.1, h.2.2.2.2.2.2.1, ?_⟩
  rw [h.2.2.2.2.2.2.2.1, hst]
  rfl

end SearchBar
